import Mathlib

/-!
Verification development for the tag and ability aggregation pipeline of the
redpenaisever repository.  The JavaScript functions of
src/api/admin/[action].js and src/api/data/[action].js that the claims talk
about are embedded as executable Lean definitions; machine maps and sets are
modelled as association lists and duplicate-free lists, ISO timestamps as
milliseconds (Nat), and database stores as lists of rows.
-/

namespace RedPen

/-! Constants from src/api/admin/[action].js lines 5-23 and
src/api/data/[action].js line 5. -/

def TAG_QUIET_MINUTES : Nat := 5

def TAG_MAX_WAIT_MINUTES : Nat := 30

def TAG_MIN_SAMPLE_COUNT : Nat := 5

def TAG_TOP_ISSUES : Nat := 50

def TAG_LIMIT : Nat := 8

def DICT_MERGE_MIN_LABELS : Nat := 4

def DICT_MERGE_MAX_LABELS : Nat := 120

def minuteMs : Nat := 60000

/-! Shared helpers: label normalization (admin lines 112-125) and JS Map / Set
semantics as association lists and duplicate-free lists. -/

/-- admin line 112: normalizeTagLabel removes every whitespace character and
lowercases the rest. -/
def normalizeTagLabel (label : String) : String :=
  String.mk ((label.toList.filter (fun c => !c.isWhitespace)).map Char.toLower)

/-- admin line 122: normalizeIssueText collapses whitespace runs to single
spaces and trims the ends (split at whitespace, drop empty segments, rejoin
with single spaces). -/
def normalizeIssueText (text : String) : String :=
  String.intercalate " "
    (((text.toList.splitOnP Char.isWhitespace).map String.mk).filter (fun s => s ≠ ""))

/-- JS String.prototype.trim: drop leading and trailing whitespace. -/
def jsTrim (s : String) : String :=
  String.mk (((s.toList.dropWhile Char.isWhitespace).reverse.dropWhile Char.isWhitespace).reverse)

/-- JS Set.add: append the element unless it is already present. -/
def setAdd {α : Type} [DecidableEq α] (l : List α) (x : α) : List α :=
  if x ∈ l then l else l ++ [x]

/-- JS Map.get on an association list (first binding wins, as the update
functions below keep keys unique). -/
def jsMapGet {β : Type} : List (String × β) → String → Option β
  | [], _ => none
  | p :: rest, k => if p.1 = k then some p.2 else jsMapGet rest k

/-- The common JS pattern: if the map lacks the key, seed it with an initial
value, then update the stored value in place; a new key is appended. -/
def jsMapUpsert {β : Type} : List (String × β) → String → β → (β → β) → List (String × β)
  | [], k, init, f => [(k, f init)]
  | p :: rest, k, init, f =>
    if p.1 = k then (p.1, f p.2) :: rest else p :: jsMapUpsert rest k init f

/-- JS Map.set: overwrite or append. -/
def jsMapSet {β : Type} (m : List (String × β)) (k : String) (v : β) : List (String × β) :=
  jsMapUpsert m k v (fun _ => v)

theorem mem_setAdd {α : Type} [DecidableEq α] (l : List α) (x y : α) :
    y ∈ setAdd l x ↔ y ∈ l ∨ y = x := by
  unfold setAdd
  split
  · rename_i h
    constructor
    · exact Or.inl
    · rintro (hy | rfl)
      · exact hy
      · exact h
  · simp

theorem nodup_setAdd {α : Type} [DecidableEq α] (l : List α) (x : α) (h : l.Nodup) :
    (setAdd l x).Nodup := by
  unfold setAdd
  split
  · exact h
  · rename_i hx
    simpa [List.nodup_append] using ⟨h, fun hmem => hx hmem⟩

theorem toFinset_setAdd {α : Type} [DecidableEq α] (l : List α) (x : α) :
    (setAdd l x).toFinset = insert x l.toFinset := by
  ext y
  simp [mem_setAdd, or_comm]

theorem jsMapGet_upsert {β : Type} (m : List (String × β)) (k k2 : String)
    (init : β) (f : β → β) :
    jsMapGet (jsMapUpsert m k init f) k2 =
      if k2 = k then some (f ((jsMapGet m k).getD init)) else jsMapGet m k2 := by
  induction m with
  | nil =>
    by_cases h : k2 = k <;> simp [jsMapUpsert, jsMapGet, h]
    · intro hk
      exact absurd hk.symm h
  | cons p rest ih =>
    by_cases hp : p.1 = k
    · by_cases h2 : k2 = k
      · simp [jsMapUpsert, jsMapGet, hp, h2]
      · have hne : ¬ p.1 = k2 := fun hc => h2 (by rw [← hc, hp])
        have hkk2 : ¬ k = k2 := fun hc => h2 hc.symm
        simp [jsMapUpsert, jsMapGet, hp, h2, hne, hkk2]
    · by_cases hpk2 : p.1 = k2
      · have h2 : ¬ k2 = k := fun hc => hp (by rw [hpk2, hc])
        simp [jsMapUpsert, jsMapGet, hp, hpk2, h2]
      · simp [jsMapUpsert, jsMapGet, hp, hpk2, ih]

theorem jsMapGet_set {β : Type} (m : List (String × β)) (k k2 : String) (v : β) :
    jsMapGet (jsMapSet m k v) k2 = if k2 = k then some v else jsMapGet m k2 :=
  jsMapGet_upsert m k k2 v (fun _ => v)

/-! Keys of an association list stay duplicate-free under jsMapUpsert, and a
stored binding is the one jsMapGet returns. -/

theorem keys_jsMapUpsert {β : Type} (m : List (String × β)) (k : String)
    (init : β) (f : β → β) :
    (jsMapUpsert m k init f).map Prod.fst =
      if k ∈ m.map Prod.fst then m.map Prod.fst else m.map Prod.fst ++ [k] := by
  induction m with
  | nil => simp [jsMapUpsert]
  | cons p rest ih =>
    by_cases hp : p.1 = k
    · simp [jsMapUpsert, hp]
    · have : ¬ k = p.1 := fun hc => hp hc.symm
      by_cases hk : k ∈ rest.map Prod.fst <;>
        simp [jsMapUpsert, hp, this, hk, ih]

theorem keysNodup_jsMapUpsert {β : Type} (m : List (String × β)) (k : String)
    (init : β) (f : β → β) (h : (m.map Prod.fst).Nodup) :
    ((jsMapUpsert m k init f).map Prod.fst).Nodup := by
  rw [keys_jsMapUpsert]
  by_cases hk : k ∈ m.map Prod.fst
  · simpa [hk] using h
  · rw [if_neg hk, List.nodup_append]
    refine ⟨h, by simp, ?_⟩
    intro a ha hb
    simp only [List.mem_singleton] at hb
    subst hb
    exact hk ha

theorem jsMapGet_of_mem {β : Type} (m : List (String × β)) (k : String) (b : β)
    (hnodup : (m.map Prod.fst).Nodup) (hmem : (k, b) ∈ m) :
    jsMapGet m k = some b := by
  induction m with
  | nil => cases hmem
  | cons p rest ih =>
    rcases List.mem_cons.mp hmem with hp | hp
    · simp [jsMapGet, ← hp]
    · have hk : k ∈ rest.map Prod.fst := by
        exact List.mem_map.mpr ⟨(k, b), hp, rfl⟩
      have hne : ¬ p.1 = k := by
        intro hc
        have := (List.nodup_cons.mp hnodup).1
        exact this (by rw [hc]; exact hk)
      simp [jsMapGet, hne]
      exact ih (List.nodup_cons.mp hnodup).2 hp

/-! The model output a clustering run parses (admin lines 2900-2928). -/

/-- One entry of the tags array found in the model response, after JSON
parsing: label and tag are the optional string fields, count is the parseInt
result (none models NaN), examples the optional string array. -/
structure RawTag where
  label : Option String
  tag : Option String
  count : Option Int
  examples : Option (List String)
deriving DecidableEq

/-- admin lines 2902-2907: prefer the trimmed label field, fall back to the
trimmed tag field, else the empty string. -/
def rawTagLabel (t : RawTag) : String :=
  match t.label with
  | some l => jsTrim l
  | none =>
    match t.tag with
    | some l => jsTrim l
    | none => ""

structure NormalizedTag where
  label : String
  count : Int
  examples : Option (List String)
deriving DecidableEq

/-- Comparator b.count - a.count of admin line 2923: a sorts before b when its
count is at least b.count. -/
def tagCountDesc (a b : NormalizedTag) : Prop := b.count ≤ a.count

instance : DecidableRel tagCountDesc := fun a b =>
  inferInstanceAs (Decidable (b.count ≤ a.count))

instance : IsTotal NormalizedTag tagCountDesc :=
  ⟨fun a b => le_total b.count a.count⟩

instance : IsTrans NormalizedTag tagCountDesc :=
  ⟨fun _ _ _ hab hbc => le_trans hbc hab⟩

/-- admin lines 2900-2924: keep tags with a nonempty label and a finite
positive count, clamp the count to the sample count, trim and cap the
examples at two, sort descending by count and keep the first TAG_LIMIT. -/
def normalizeModelTags (rawTags : List RawTag) (sampleCount : Nat) : List NormalizedTag :=
  ((rawTags.filterMap (fun tag =>
      let label := rawTagLabel tag
      match tag.count with
      | none => none
      | some count =>
        if label = "" ∨ count ≤ 0 then none
        else
          some { label := label,
                 count := min count (sampleCount : Int),
                 examples := tag.examples.map (fun ex =>
                   ((ex.map jsTrim).filter (fun item => item.length > 0)).take 2) }
    )).insertionSort tagCountDesc).take TAG_LIMIT

/-- One row of assignment_tag_aggregates as written by the pipeline. -/
structure AggregateRow where
  owner_id : String
  assignment_id : String
  tag_label : String
  tag_count : Int
  examples : Option (List String)
deriving DecidableEq

/-- admin lines 2969-2979: the aggregate rows a clustering run inserts. -/
def clusteringAggregateRows (ownerId assignmentId : String) (tags : List NormalizedTag) :
    List AggregateRow :=
  tags.map (fun tag =>
    { owner_id := ownerId, assignment_id := assignmentId, tag_label := tag.label,
      tag_count := tag.count, examples := tag.examples })

theorem normalizeModelTags_count_le (rawTags : List RawTag) (sampleCount : Nat) :
    ∀ t ∈ normalizeModelTags rawTags sampleCount, t.count ≤ (sampleCount : Int) := by
  intro t ht
  have ht2 : t ∈ (rawTags.filterMap (fun tag =>
      let label := rawTagLabel tag
      match tag.count with
      | none => none
      | some count =>
        if label = "" ∨ count ≤ 0 then none
        else
          some { label := label,
                 count := min count (sampleCount : Int),
                 examples := tag.examples.map (fun ex =>
                   ((ex.map jsTrim).filter (fun item => item.length > 0)).take 2) }
    ) : List NormalizedTag) := by
    have h1 := List.mem_of_mem_take ht
    exact (List.perm_insertionSort tagCountDesc _).mem_iff.mp h1
  rcases List.mem_filterMap.mp ht2 with ⟨raw, _, heq⟩
  rcases hc : raw.count with _ | count
  · rw [hc] at heq
    simp at heq
  · rw [hc] at heq
    by_cases hguard : rawTagLabel raw = "" ∨ count ≤ 0
    · simp [hguard] at heq
    · simp only [hguard, if_false] at heq
      cases heq
      exact min_le_right _ _

/-- Claim C1: a clustering run that reaches the model step writes at most
TAG_LIMIT (8) aggregate rows, every written tag count is at most the graded
submission count (each model count is clamped to the sample count), and the
kept tags are sorted descending by count. -/
theorem claim_C1 (rawTags : List RawTag) (sampleCount : Nat) (ownerId assignmentId : String) :
    (clusteringAggregateRows ownerId assignmentId (normalizeModelTags rawTags sampleCount)).length ≤ TAG_LIMIT ∧
    (∀ row ∈ clusteringAggregateRows ownerId assignmentId (normalizeModelTags rawTags sampleCount),
        row.tag_count ≤ (sampleCount : Int)) ∧
    (normalizeModelTags rawTags sampleCount).Sorted tagCountDesc := by
  refine ⟨?_, ?_, ?_⟩
  · have : (normalizeModelTags rawTags sampleCount).length ≤ TAG_LIMIT := by
      unfold normalizeModelTags
      exact (List.length_take_le _ _)
    simpa [clusteringAggregateRows] using this
  · intro row hrow
    rcases List.mem_map.mp hrow with ⟨t, ht, rfl⟩
    exact normalizeModelTags_count_le rawTags sampleCount t ht
  · unfold normalizeModelTags
    exact (List.sorted_insertionSort tagCountDesc _).sublist (List.take_sublist _ _)

/-- Claim C1 witness: a concrete model response with six raw tags, two of them
invalid and one count above the sample count, passes through the pipeline. -/
theorem claim_C1_witness :
    (clusteringAggregateRows "o" "a"
        (normalizeModelTags
          [⟨some "Sign Error", none, some 9, none⟩,
           ⟨none, some "missing units", some 2, none⟩,
           ⟨some "", none, some 3, none⟩,
           ⟨some "bad count", none, none, none⟩] 6)).length ≤ TAG_LIMIT ∧
    ∀ row ∈ clusteringAggregateRows "o" "a"
        (normalizeModelTags
          [⟨some "Sign Error", none, some 9, none⟩,
           ⟨none, some "missing units", some 2, none⟩,
           ⟨some "", none, some 3, none⟩,
           ⟨some "bad count", none, none, none⟩] 6),
      row.tag_count ≤ ((6 : Nat) : Int) := by
  have h := claim_C1
    [⟨some "Sign Error", none, some 9, none⟩,
     ⟨none, some "missing units", some 2, none⟩,
     ⟨some "", none, some 3, none⟩,
     ⟨some "bad count", none, none, none⟩] 6 "o" "a"
  exact ⟨h.1, h.2.1⟩

/-! Claim C3: the aggregate replace-set of a clustering run
(admin lines 2963-2987) is a plain delete followed by a plain insert; the
delete result is not even checked, and a failing insert throws after the
delete has already been applied. -/

def matchesAssignment (ownerId assignmentId : String) (r : AggregateRow) : Bool :=
  r.owner_id = ownerId && r.assignment_id = assignmentId

/-- admin lines 2963-2987 modelled on a store of aggregate rows: first the
delete for (owner, assignment) is applied, then, if the insert fails, the
function throws with the store left in the post-delete state (second
component true signals the thrown error). -/
def replaceAssignmentAggregates (store : List AggregateRow) (ownerId assignmentId : String)
    (newRows : List AggregateRow) (insertFails : Bool) : List AggregateRow × Bool :=
  let afterDelete := store.filter (fun r => !(matchesAssignment ownerId assignmentId r))
  if insertFails then (afterDelete, true) else (afterDelete ++ newRows, false)

def c3PriorRow : AggregateRow :=
  { owner_id := "o", assignment_id := "a1", tag_label := "sign error",
    tag_count := 3, examples := none }

def c3NewRow : AggregateRow :=
  { owner_id := "o", assignment_id := "a1", tag_label := "missing units",
    tag_count := 2, examples := none }

/-- Claim C3: the replace-set is not all-or-nothing.  When the insert fails
after the delete succeeded, the previously stored aggregate rows for the
(owner, assignment) are gone and the error is reported: the store is left in
a partially replaced (emptied) state, contradicting the claim that the prior
rows remain unchanged on any error. -/
theorem claim_C3 :
    (replaceAssignmentAggregates [c3PriorRow] "o" "a1" [c3NewRow] true).2 = true ∧
    (replaceAssignmentAggregates [c3PriorRow] "o" "a1" [c3NewRow] true).1 = [] ∧
    ([c3PriorRow] : List AggregateRow) ≠ [] := by
  decide

/-! Claim C10: finalizeAssignmentTagState (admin lines 1956-2017). -/

inductive TagStatus where
  | idle
  | pending
  | running
  | ready
  | failed
  | insufficient_samples
deriving DecidableEq

/-- The dirty and last_event_at columns finalizeAssignmentTagState re-reads
(admin lines 1965-1970). -/
structure FinalizeLatest where
  dirty : Bool
  last_event_at : Option Nat
deriving DecidableEq

/-- The state columns the finalize update writes (admin lines 1976-2016);
window_started_at and next_run_at are none when the update omits them. -/
structure FinalizeUpdate where
  status : TagStatus
  sample_count : Nat
  dirty : Bool
  window_started_at : Option Nat
  next_run_at : Option Nat
deriving DecidableEq

/-- admin lines 1976-2016: with the dirty flag set again the state is
re-opened to pending anchored at the latest event; otherwise it becomes
ready. -/
def finalizeAssignmentTagState (latest : Option FinalizeLatest) (nowMs sampleCount : Nat) :
    FinalizeUpdate :=
  if (latest.map (fun l => l.dirty)).getD false then
    let lastEventAt := (latest.bind (fun l => l.last_event_at)).getD nowMs
    { status := TagStatus.pending, sample_count := sampleCount, dirty := false,
      window_started_at := some lastEventAt,
      next_run_at := some (lastEventAt + TAG_QUIET_MINUTES * minuteMs) }
  else
    { status := TagStatus.ready, sample_count := sampleCount, dirty := false,
      window_started_at := none, next_run_at := none }

/-- Claim C10: when the state went dirty again during the run, finalization
re-opens it to pending with next_run_at at last_event_at plus five minutes and
also resets window_started_at to last_event_at, restarting the max-wait clock
from the latest event. -/
theorem claim_C10 (l : FinalizeLatest) (nowMs sampleCount : Nat) (h : l.dirty = true) :
    finalizeAssignmentTagState (some l) nowMs sampleCount =
      { status := TagStatus.pending, sample_count := sampleCount, dirty := false,
        window_started_at := some (l.last_event_at.getD nowMs),
        next_run_at := some (l.last_event_at.getD nowMs + TAG_QUIET_MINUTES * minuteMs) } := by
  simp [finalizeAssignmentTagState, h]

/-- Claim C10 witness: a dirty state whose last event was at minute 7,
finalized at minute 20, re-opens with the window anchored at minute 7. -/
theorem claim_C10_witness :
    finalizeAssignmentTagState (some ⟨true, some 420000⟩) 1200000 6 =
      { status := TagStatus.pending, sample_count := 6, dirty := false,
        window_started_at := some 420000, next_run_at := some 720000 } := by
  have h := claim_C10 ⟨true, some 420000⟩ 1200000 6 rfl
  simpa using h

/-! Claim C2 and C8: touchAssignmentTagStates (data lines 160-216) and the
sweep due filter of handleAggregateTags (admin lines 3049-3095). -/

/-- One assignment_tag_state row, timestamps in milliseconds; none models a
null column. -/
structure TagStateRow where
  status : TagStatus
  window_started_at : Option Nat
  last_event_at : Option Nat
  next_run_at : Option Nat
  dirty : Bool
  manual_locked : Bool
deriving DecidableEq

/-- data lines 180-204 for a single assignment: the state row the
graded-submission touch upserts, merged with the existing row (a field the
update omits, such as next_run_at under a manual lock, keeps its old
value). -/
def touchUpsertRow (existing : Option TagStateRow) (nowMs : Nat) : TagStateRow :=
  let isManualLocked : Bool := (existing.map (fun e => e.manual_locked)).getD false
  let status : TagStatus :=
    if isManualLocked then TagStatus.ready
    else (existing.map (fun e => e.status)).getD TagStatus.idle
  let isRunning : Bool := status = TagStatus.running
  let resetWindow : Bool :=
    match existing with
    | none => true
    | some e =>
      e.window_started_at = none || status = TagStatus.idle || status = TagStatus.failed ||
        status = TagStatus.ready || status = TagStatus.insufficient_samples
  { status := if isManualLocked then TagStatus.ready
      else if isRunning then TagStatus.running else TagStatus.pending,
    window_started_at :=
      if resetWindow then some nowMs else existing.bind (fun e => e.window_started_at),
    last_event_at := some nowMs,
    next_run_at := if isManualLocked then existing.bind (fun e => e.next_run_at)
      else some (nowMs + TAG_QUIET_MINUTES * minuteMs),
    dirty := if isManualLocked then false
      else if isRunning then true else (existing.map (fun e => e.dirty)).getD false,
    manual_locked := if isManualLocked then true
      else (existing.map (fun e => e.manual_locked)).getD false }

/-- admin lines 3085-3090: quiet due test of the sweep filter; a missing
timestamp parses to NaN, modelled by none. -/
def sweepQuietDue (row : TagStateRow) (nowMs : Nat) : Bool :=
  match row.next_run_at with
  | some nextRunAt =>
    if nextRunAt ≤ nowMs then true
    else
      match row.last_event_at with
      | some lastEvent => TAG_QUIET_MINUTES * minuteMs ≤ nowMs - lastEvent
      | none => false
  | none =>
    match row.last_event_at with
    | some lastEvent => TAG_QUIET_MINUTES * minuteMs ≤ nowMs - lastEvent
    | none => false

/-- admin lines 3091-3093: max-wait due test of the sweep filter. -/
def sweepMaxWaitDue (row : TagStateRow) (nowMs : Nat) : Bool :=
  match row.window_started_at with
  | some windowStart => TAG_MAX_WAIT_MINUTES * minuteMs ≤ nowMs - windowStart
  | none => false

/-- admin line 3094: a state row is due when either test passes. -/
def sweepDue (row : TagStateRow) (nowMs : Nat) : Bool :=
  sweepQuietDue row nowMs || sweepMaxWaitDue row nowMs

/-- admin lines 3055-3064: the status filter of the sweep query; the ordinary
automatic sweep (includeReady false) only selects pending rows. -/
def sweepStatusSelected (includeReady : Bool) (row : TagStateRow) : Bool :=
  if includeReady then
    row.status = TagStatus.pending || row.status = TagStatus.ready ||
      row.status = TagStatus.failed || row.status = TagStatus.insufficient_samples
  else row.status = TagStatus.pending

/-- admin lines 3049-3095 combined: a row is picked by a sweep when the status
query selects it and it is due (or force is set). -/
def sweepPicked (includeReady force : Bool) (row : TagStateRow) (nowMs : Nat) : Bool :=
  sweepStatusSelected includeReady row && (force || sweepDue row nowMs)

theorem sweepDue_of_touched (row : TagStateRow) (nowMs w : Nat)
    (hnext : row.next_run_at = some (nowMs + TAG_QUIET_MINUTES * minuteMs))
    (hlast : row.last_event_at = some nowMs)
    (hwin : row.window_started_at = some w) (t : Nat) :
    sweepDue row t =
      (decide (nowMs + TAG_QUIET_MINUTES * minuteMs ≤ t) ||
        decide (TAG_MAX_WAIT_MINUTES * minuteMs ≤ t - w)) := by
  unfold sweepDue sweepQuietDue sweepMaxWaitDue
  rw [hnext, hlast, hwin]
  by_cases hq : nowMs + TAG_QUIET_MINUTES * minuteMs ≤ t
  · simp [hq]
  · have hq2 : ¬ TAG_QUIET_MINUTES * minuteMs ≤ t - nowMs := by
      simp only [TAG_QUIET_MINUTES, minuteMs] at hq ⊢
      omega
    simp [hq, hq2]

/-- Claim C2 counterexample: a non-manual-locked state row whose status is
pending but whose window_started_at is null.  The claim says the window start
is preserved for a pending prior status, yet the touch resets it to now. -/
def c2PendingNoWindow : TagStateRow :=
  { status := TagStatus.pending, window_started_at := none, last_event_at := some 0,
    next_run_at := some 300000, dirty := false, manual_locked := false }

theorem claim_C2_counterexample :
    c2PendingNoWindow.manual_locked = false ∧
    c2PendingNoWindow.status ≠ TagStatus.idle ∧
    c2PendingNoWindow.status ≠ TagStatus.ready ∧
    c2PendingNoWindow.status ≠ TagStatus.failed ∧
    c2PendingNoWindow.status ≠ TagStatus.insufficient_samples ∧
    (touchUpsertRow (some c2PendingNoWindow) 600000).window_started_at ≠
      c2PendingNoWindow.window_started_at := by
  decide

/-- Claim C2 (amended): for a non-manual-locked state, a graded-submission
event sets last_event_at to now and next_run_at to now plus five minutes;
window_started_at is reset to now when the prior status was idle, ready,
failed or insufficient_samples, when no row existed, or when the stored
window_started_at was null, and is preserved otherwise; and the touched row
is due for the sweep exactly when now is past next_run_at or thirty minutes
have passed since window_started_at, so the sliding quiet deadline cannot
push a run past the max-wait ceiling. -/
theorem claim_C2 (existing : Option TagStateRow) (nowMs : Nat)
    (hlock : ∀ e, existing = some e → e.manual_locked = false) :
    (touchUpsertRow existing nowMs).last_event_at = some nowMs ∧
    (touchUpsertRow existing nowMs).next_run_at =
      some (nowMs + TAG_QUIET_MINUTES * minuteMs) ∧
    (touchUpsertRow existing nowMs).window_started_at =
      (match existing with
       | none => some nowMs
       | some e =>
         if e.status = TagStatus.idle ∨ e.status = TagStatus.ready ∨
             e.status = TagStatus.failed ∨ e.status = TagStatus.insufficient_samples ∨
             e.window_started_at = none
         then some nowMs else e.window_started_at) ∧
    (∀ w, (touchUpsertRow existing nowMs).window_started_at = some w →
      ∀ t : Nat, sweepDue (touchUpsertRow existing nowMs) t =
        (decide (nowMs + TAG_QUIET_MINUTES * minuteMs ≤ t) ||
          decide (TAG_MAX_WAIT_MINUTES * minuteMs ≤ t - w))) ∧
    (∀ w, (touchUpsertRow existing nowMs).window_started_at = some w →
      ∀ t : Nat, w + TAG_MAX_WAIT_MINUTES * minuteMs ≤ t →
        sweepDue (touchUpsertRow existing nowMs) t = true) := by
  have hlast : (touchUpsertRow existing nowMs).last_event_at = some nowMs := by
    cases existing <;> simp [touchUpsertRow]
  have hnext : (touchUpsertRow existing nowMs).next_run_at =
      some (nowMs + TAG_QUIET_MINUTES * minuteMs) := by
    cases existing with
    | none => simp [touchUpsertRow]
    | some e => simp [touchUpsertRow, hlock e rfl]
  refine ⟨hlast, hnext, ?_, ?_, ?_⟩
  · cases existing with
    | none => simp [touchUpsertRow]
    | some e =>
      obtain ⟨st, ws, le, nr, d, ml⟩ := e
      have hml : ml = false := by simpa using hlock ⟨st, ws, le, nr, d, ml⟩ rfl
      subst hml
      cases st <;> cases ws <;> simp [touchUpsertRow]
  · intro w hw t
    exact sweepDue_of_touched _ nowMs w hnext hlast hw t
  · intro w hw t ht
    rw [sweepDue_of_touched _ nowMs w hnext hlast hw t]
    have : TAG_MAX_WAIT_MINUTES * minuteMs ≤ t - w := by omega
    simp [this]

/-- Claim C2 witness: a first event at time 0 with no prior row resets the
window to 0, and the instance is due at the thirty-minute ceiling. -/
theorem claim_C2_witness :
    (touchUpsertRow none 0).window_started_at = some 0 ∧
    sweepDue (touchUpsertRow none 0) (TAG_MAX_WAIT_MINUTES * minuteMs) = true := by
  have h := claim_C2 none 0 (fun e he => by cases he)
  refine ⟨h.2.2.1, ?_⟩
  exact h.2.2.2.2 0 h.2.2.1 (TAG_MAX_WAIT_MINUTES * minuteMs) (by omega)

/-! Claim C4: the tag-state touch inside handleSync (data lines 504-770).
The touch call at lines 737-743 sits inside the same try block as the data
writes; its exception reaches the catch at line 766, which answers 500. -/

/-- Outcomes of the awaited steps of the sync POST body, in source order. -/
structure SyncEffects where
  applyDeletes : Except String Unit
  classroomsUpsert : Except String Unit
  studentsUpsert : Except String Unit
  assignmentsUpsert : Except String Unit
  submissionsUpsert : Except String Unit
  touchTagStates : Except String Unit
  foldersUpsert : Except String Unit

/-- data lines 504-764: the sequence of awaited effects of the sync POST
try block; the touch runs only when some upserted submission row was
graded. -/
def syncPipeline (fx : SyncEffects) (touchedAssignmentsNonempty : Bool) :
    Except String Unit := do
  fx.applyDeletes
  fx.classroomsUpsert
  fx.studentsUpsert
  fx.assignmentsUpsert
  fx.submissionsUpsert
  if touchedAssignmentsNonempty then fx.touchTagStates
  fx.foldersUpsert

inductive SyncResponse where
  | success
  | serverError (message : String)
deriving DecidableEq

/-- data lines 765-770: status 200 on success, status 500 with the error
message when anything in the try block threw. -/
def handleSyncPost (fx : SyncEffects) (touchedAssignmentsNonempty : Bool) : SyncResponse :=
  match syncPipeline fx touchedAssignmentsNonempty with
  | Except.ok _ => SyncResponse.success
  | Except.error message => SyncResponse.serverError message

def c4Effects : SyncEffects :=
  { applyDeletes := Except.ok (), classroomsUpsert := Except.ok (),
    studentsUpsert := Except.ok (), assignmentsUpsert := Except.ok (),
    submissionsUpsert := Except.ok (),
    touchTagStates := Except.error ("tag state upsert failed"),
    foldersUpsert := Except.ok () }

/-- Claim C4 counterexample: a sync request whose submission writes all
succeed but whose tag-state touch fails produces the 500 error response, not
the success response the claim promises. -/
theorem claim_C4_counterexample :
    handleSyncPost c4Effects true = SyncResponse.serverError ("tag state upsert failed") ∧
    handleSyncPost c4Effects true ≠ SyncResponse.success ∧
    c4Effects.submissionsUpsert = Except.ok () := by
  refine ⟨rfl, by decide, rfl⟩

/-- Claim C4 (amended): a failure of the assignment-tag-state touch is not
swallowed.  When every earlier write of the sync succeeded and the touch
fails, the handler stops and answers 500 with the touch error message, even
though the submission writes were already performed. -/
theorem claim_C4 (fx : SyncEffects) (message : String)
    (hdel : fx.applyDeletes = Except.ok ())
    (hcls : fx.classroomsUpsert = Except.ok ())
    (hstu : fx.studentsUpsert = Except.ok ())
    (hasg : fx.assignmentsUpsert = Except.ok ())
    (hsub : fx.submissionsUpsert = Except.ok ())
    (htouch : fx.touchTagStates = Except.error message) :
    handleSyncPost fx true = SyncResponse.serverError message := by
  obtain ⟨d, c, s, a, sub, t, f⟩ := fx
  simp only at hdel hcls hstu hasg hsub htouch
  subst hdel hcls hstu hasg hsub htouch
  rfl

/-- Claim C4 witness: the amended behaviour at the concrete failing sync. -/
theorem claim_C4_witness :
    handleSyncPost c4Effects true = SyncResponse.serverError ("tag state upsert failed") :=
  claim_C4 c4Effects "tag state upsert failed" rfl rfl rfl rfl rfl rfl

/-! Claim C5: dictionary insertion during a clustering run
(admin lines 2880-2886 and 2935-2961).  The membership check consults only
the dictionary snapshot loaded before the loop, so two model labels with the
same normalized form are both inserted as active entries. -/

inductive DictStatus where
  | active
  | merged
deriving DecidableEq

structure DictRow where
  id : Nat
  label : String
  normalized_label : String
  status : DictStatus
  merged_to_tag_id : Option Nat
deriving DecidableEq

/-- admin line 2883: row.normalized_label when present, else the
normalization of the label; the empty string models null. -/
def dictNormalizedOf (row : DictRow) : String :=
  if row.normalized_label = "" then normalizeTagLabel row.label else row.normalized_label

/-- admin lines 2935-2948: the new dictionary rows a clustering run pushes;
the membership test uses only the pre-loop dictionary map, never the rows
already pushed in the same loop.  Fresh ids are allocated from nextId. -/
def clusteringNewDictionaryRows (activeRows : List DictRow) (tags : List NormalizedTag)
    (nextId : Nat) : List DictRow :=
  tags.foldl (fun acc tag =>
    let normalizedLabel := normalizeTagLabel tag.label
    if normalizedLabel ∈ activeRows.map dictNormalizedOf then acc
    else acc ++ [{ id := nextId + acc.length, label := tag.label,
                   normalized_label := normalizedLabel, status := DictStatus.active,
                   merged_to_tag_id := none }]) []

/-- admin lines 2950-2958: the insert appends the new rows to the owner
dictionary. -/
def clusteringInsertDictionary (activeRows : List DictRow) (tags : List NormalizedTag)
    (nextId : Nat) : List DictRow :=
  activeRows ++ clusteringNewDictionaryRows activeRows tags nextId

/-- The spec invariant: no two active entries share a normalized label,
stated as duplicate-freeness of the normalized labels of the active rows. -/
def activeNormalizedUnique (rows : List DictRow) : Prop :=
  ((rows.filter (fun r => r.status = DictStatus.active)).map dictNormalizedOf).Nodup

instance (rows : List DictRow) : Decidable (activeNormalizedUnique rows) := by
  unfold activeNormalizedUnique
  infer_instance

def c5Tags : List NormalizedTag :=
  [{ label := "Sign Error", count := 3, examples := none },
   { label := "sign  error", count := 2, examples := none }]

/-- Claim C5: the uniqueness invariant is broken by the code.  A clustering
run whose model output contains the two distinct labels Sign Error and
sign  error (equal after case and whitespace folding) inserts both as active
entries with the same normalized label into an owner dictionary that starts
empty and trivially satisfies the invariant. -/
theorem claim_C5 :
    activeNormalizedUnique [] ∧
    (clusteringInsertDictionary [] c5Tags 1).map dictNormalizedOf =
      ["signerror", "signerror"] ∧
    (∀ r ∈ clusteringInsertDictionary [] c5Tags 1, r.status = DictStatus.active) ∧
    ¬ activeNormalizedUnique (clusteringInsertDictionary [] c5Tags 1) := by
  decide

/-! Claim C8: the manual override branch of handleTags
(admin lines 1176-1322) and its interaction with the touch and the sweep. -/

/-- admin lines 1189-1208: normalization of the posted tag list; a post is
kept when its trimmed label is nonempty and its parsed count is positive. -/
def overrideNormalizedTags (tags : List RawTag) : List NormalizedTag :=
  tags.filterMap (fun tag =>
    let label := rawTagLabel tag
    if label = "" then none
    else
      match tag.count with
      | none => none
      | some count =>
        if count ≤ 0 then none
        else
          some { label := label, count := count,
                 examples := tag.examples.map (fun ex =>
                   ((ex.map jsTrim).filter (fun item => item.length > 0)).take 2) })

/-- admin lines 1274-1294: the override deletes the aggregate rows of the
assignment and inserts exactly the posted rows. -/
def manualOverrideAggregates (store : List AggregateRow) (ownerId assignmentId : String)
    (tags : List NormalizedTag) : List AggregateRow :=
  store.filter (fun r => !(matchesAssignment ownerId assignmentId r)) ++
    tags.map (fun tag =>
      { owner_id := ownerId, assignment_id := assignmentId, tag_label := tag.label,
        tag_count := tag.count, examples := tag.examples })

/-- admin lines 1301-1317: the state upsert of the override; next_run_at is
cleared when locking, otherwise left as stored. -/
def manualOverrideState (existing : Option TagStateRow) (manualLocked : Bool) : TagStateRow :=
  { status := TagStatus.ready,
    window_started_at := existing.bind (fun e => e.window_started_at),
    last_event_at := existing.bind (fun e => e.last_event_at),
    next_run_at := if manualLocked then none else existing.bind (fun e => e.next_run_at),
    dirty := false,
    manual_locked := manualLocked }

/-- admin lines 1215-1218: parseBooleanParam of the posted manualLocked flag
with fallback true. -/
def parseManualLockedParam (payload : Option Bool) : Bool := payload.getD true

def validOverrideTag (tag : RawTag) : Prop :=
  rawTagLabel tag ≠ "" ∧ ∃ c, tag.count = some c ∧ 0 < c

theorem overrideNormalizedTags_pairs (posts : List RawTag)
    (hvalid : ∀ p ∈ posts, validOverrideTag p) :
    (overrideNormalizedTags posts).map (fun t => (t.label, t.count)) =
      posts.map (fun p => (rawTagLabel p, p.count.getD 0)) := by
  induction posts with
  | nil => rfl
  | cons p ps ih =>
    obtain ⟨hlabel, c, hc, hcpos⟩ := hvalid p (List.mem_cons_self p ps)
    have hrest := fun q hq => hvalid q (List.mem_cons_of_mem p hq)
    have hnle : ¬ c ≤ 0 := by omega
    simp only [overrideNormalizedTags, List.filterMap_cons, hlabel, if_false, hc, hnle,
      List.map_cons]
    rw [← overrideNormalizedTags]
    simp [ih hrest, hc]

/-- Claim C8: a manual override with a valid owner, assignment and tag list
replaces the aggregate rows of the assignment with exactly the posted rows,
leaves every other aggregate row unchanged, sets the state to ready with
manual_locked true (the default when the flag is absent) and dirty false; a
later graded-submission event leaves the state at ready with dirty false,
and neither the override state nor the touched state is ever picked by the
automatic sweep, forced or not. -/
theorem claim_C8 (store : List AggregateRow) (ownerId assignmentId : String)
    (posts : List RawTag) (existing : Option TagStateRow)
    (hposts : posts ≠ []) (hvalid : ∀ p ∈ posts, validOverrideTag p) :
    overrideNormalizedTags posts ≠ [] ∧
    (manualOverrideAggregates store ownerId assignmentId
        (overrideNormalizedTags posts)).filter (matchesAssignment ownerId assignmentId) =
      (overrideNormalizedTags posts).map (fun tag =>
        { owner_id := ownerId, assignment_id := assignmentId, tag_label := tag.label,
          tag_count := tag.count, examples := tag.examples }) ∧
    (manualOverrideAggregates store ownerId assignmentId
        (overrideNormalizedTags posts)).filter
        (fun r => !(matchesAssignment ownerId assignmentId r)) =
      store.filter (fun r => !(matchesAssignment ownerId assignmentId r)) ∧
    (overrideNormalizedTags posts).map (fun t => (t.label, t.count)) =
      posts.map (fun p => (rawTagLabel p, p.count.getD 0)) ∧
    (manualOverrideState existing (parseManualLockedParam none)).status = TagStatus.ready ∧
    (manualOverrideState existing (parseManualLockedParam none)).manual_locked = true ∧
    (manualOverrideState existing (parseManualLockedParam none)).dirty = false ∧
    (manualOverrideState existing (parseManualLockedParam none)).next_run_at = none ∧
    (∀ nowMs : Nat,
      (touchUpsertRow (some (manualOverrideState existing (parseManualLockedParam none))) nowMs).status =
        TagStatus.ready ∧
      (touchUpsertRow (some (manualOverrideState existing (parseManualLockedParam none))) nowMs).dirty =
        false) ∧
    (∀ t : Nat, ∀ force : Bool,
      sweepPicked false force (manualOverrideState existing (parseManualLockedParam none)) t =
        false) ∧
    (∀ nowMs t : Nat, ∀ force : Bool,
      sweepPicked false force
        (touchUpsertRow (some (manualOverrideState existing (parseManualLockedParam none))) nowMs) t =
        false) := by
  have hpairs := overrideNormalizedTags_pairs posts hvalid
  refine ⟨?_, ?_, ?_, hpairs, rfl, rfl, rfl, rfl, ?_, ?_, ?_⟩
  · intro hnil
    have := congrArg List.length hpairs
    rcases posts with _ | ⟨p, ps⟩
    · exact hposts rfl
    · rw [hnil] at this
      simp at this
  · unfold manualOverrideAggregates
    rw [List.filter_append]
    have h1 : (store.filter (fun r => !(matchesAssignment ownerId assignmentId r))).filter
        (matchesAssignment ownerId assignmentId) = [] := by
      rw [List.filter_eq_nil_iff]
      intro a ha
      have := (List.mem_filter.mp ha).2
      simp only [Bool.not_eq_true'] at this
      simp [this]
    have h2 : ((overrideNormalizedTags posts).map (fun tag =>
        ({ owner_id := ownerId, assignment_id := assignmentId, tag_label := tag.label,
           tag_count := tag.count, examples := tag.examples } : AggregateRow))).filter
        (matchesAssignment ownerId assignmentId) =
        (overrideNormalizedTags posts).map (fun tag =>
          { owner_id := ownerId, assignment_id := assignmentId, tag_label := tag.label,
            tag_count := tag.count, examples := tag.examples }) := by
      rw [List.filter_eq_self]
      intro a ha
      rcases List.mem_map.mp ha with ⟨t, _, rfl⟩
      simp [matchesAssignment]
    rw [h1, h2, List.nil_append]
  · unfold manualOverrideAggregates
    rw [List.filter_append]
    have h1 : (store.filter (fun r => !(matchesAssignment ownerId assignmentId r))).filter
        (fun r => !(matchesAssignment ownerId assignmentId r)) =
        store.filter (fun r => !(matchesAssignment ownerId assignmentId r)) := by
      rw [List.filter_eq_self]
      intro a ha
      exact (List.mem_filter.mp ha).2
    have h2 : ((overrideNormalizedTags posts).map (fun tag =>
        ({ owner_id := ownerId, assignment_id := assignmentId, tag_label := tag.label,
           tag_count := tag.count, examples := tag.examples } : AggregateRow))).filter
        (fun r => !(matchesAssignment ownerId assignmentId r)) = [] := by
      rw [List.filter_eq_nil_iff]
      intro a ha
      rcases List.mem_map.mp ha with ⟨t, _, rfl⟩
      simp [matchesAssignment]
    rw [h1, h2, List.append_nil]
  · intro nowMs
    constructor <;> simp [touchUpsertRow, manualOverrideState, parseManualLockedParam]
  · intro t force
    simp [sweepPicked, sweepStatusSelected, manualOverrideState, parseManualLockedParam]
  · intro nowMs t force
    simp [sweepPicked, sweepStatusSelected, touchUpsertRow, manualOverrideState,
      parseManualLockedParam]

def c8Posts : List RawTag := [⟨some "計算錯誤", none, some 12, none⟩]

/-- Claim C8 witness: scenario D, posting the single tag 計算錯誤 with count
12; the aggregate for the assignment becomes exactly that row and the locked
state is never picked by the sweep. -/
theorem claim_C8_witness :
    (manualOverrideAggregates [] "owner1" "assign1"
        (overrideNormalizedTags c8Posts)).filter (matchesAssignment "owner1" "assign1") =
      (overrideNormalizedTags c8Posts).map (fun tag =>
        { owner_id := "owner1", assignment_id := "assign1", tag_label := tag.label,
          tag_count := tag.count, examples := tag.examples }) ∧
    (overrideNormalizedTags c8Posts).map (fun t => (t.label, t.count)) =
      c8Posts.map (fun p => (rawTagLabel p, p.count.getD 0)) ∧
    (manualOverrideState none (parseManualLockedParam none)).manual_locked = true ∧
    (∀ t : Nat, ∀ force : Bool,
      sweepPicked false force (manualOverrideState none (parseManualLockedParam none)) t =
        false) := by
  have h := claim_C8 [] "owner1" "assign1" c8Posts none (by decide)
    (by
      intro p hp
      simp only [c8Posts, List.mem_singleton] at hp
      subst hp
      exact ⟨by decide, 12, rfl, by decide⟩)
  exact ⟨h.2.1, h.2.2.2.1, h.2.2.2.2.2.1, h.2.2.2.2.2.2.2.2.2.1⟩

/-! Claim C6: mergeDictionaryForOwner (admin lines 2067-2234). -/

/-- JS new Set(list) iterated in insertion order: first-occurrence dedup. -/
def jsSetOf {α : Type} [DecidableEq α] (l : List α) : List α := l.foldl setAdd []

/-- One raw group of the model merge response: the canonical field when it is
a string, and the member strings. -/
structure RawMergeGroup where
  canonical : Option String
  members : List String
deriving DecidableEq

structure MergeGroup where
  canonical : String
  members : List String
deriving DecidableEq

/-- admin lines 2120-2141: trim the canonical and the members, drop empty
members, require a canonical and at least one member, prepend the canonical
when no member normalizes to it, dedup the members and require at least
two. -/
def parseMergeGroups (rawGroups : List RawMergeGroup) : List MergeGroup :=
  rawGroups.filterMap (fun group =>
    let canonical := match group.canonical with | some c => jsTrim c | none => ""
    let members := (group.members.map jsTrim).filter (fun item => item.length > 0)
    if canonical = "" ∨ members = [] then none
    else
      let members :=
        if members.any (fun item => normalizeTagLabel item = normalizeTagLabel canonical)
        then members else canonical :: members
      let uniqueMembers := jsSetOf members
      if uniqueMembers.length < 2 then none
      else some { canonical := canonical, members := uniqueMembers })

/-- The run state of the group-processing loop (admin lines 2148-2192):
the dictionary table with the canonical inserts applied, the idByNormalized
map, the canonical id set, the (member id, canonical id) merge updates in
push order, and the id counter for fresh canonical rows. -/
structure MergeAcc where
  dict : List DictRow
  idByNorm : List (String × Nat)
  canonicalIds : List Nat
  mergeUpdates : List (Nat × Nat)
  nextId : Nat
deriving DecidableEq

/-- admin lines 2111-2118: idByNormalized over the active rows. -/
def buildIdByNorm (activeRows : List DictRow) : List (String × Nat) :=
  activeRows.foldl (fun m row =>
    let normalized := dictNormalizedOf row
    if normalized = "" then m else jsMapSet m normalized row.id) []

/-- admin lines 2180-2191: one member of a group; skipped when empty, equal
to the canonical, unknown, or already merged in this run. -/
def mergeMemberStep (canonicalNormalized : String) (cid : Nat) (a : MergeAcc)
    (member : String) : MergeAcc :=
  if normalizeTagLabel member = "" ∨ normalizeTagLabel member = canonicalNormalized then a
  else
    match jsMapGet a.idByNorm (normalizeTagLabel member) with
    | none => a
    | some mid =>
      if mid ∈ a.mergeUpdates.map Prod.fst then a
      else { a with mergeUpdates := a.mergeUpdates ++ [(mid, cid)] }

/-- The canonical row a merge run inserts when the group canonical is not in
the dictionary yet (admin lines 2156-2168). -/
def freshCanonicalRow (acc : MergeAcc) (canonicalLabel : String) : DictRow :=
  { id := acc.nextId, label := canonicalLabel,
    normalized_label := normalizeTagLabel canonicalLabel,
    status := DictStatus.active, merged_to_tag_id := none }

/-- admin lines 2152-2192: one group; the canonical row is resolved (or
inserted fresh, also entering idByNormalized), recorded in the canonical id
set, then the members are walked. -/
def processMergeGroup (acc : MergeAcc) (group : MergeGroup) : MergeAcc :=
  if normalizeTagLabel group.canonical = "" then acc
  else
    match jsMapGet acc.idByNorm (normalizeTagLabel group.canonical) with
    | some cid =>
      group.members.foldl (mergeMemberStep (normalizeTagLabel group.canonical) cid)
        { acc with canonicalIds := setAdd acc.canonicalIds cid }
    | none =>
      group.members.foldl (mergeMemberStep (normalizeTagLabel group.canonical) acc.nextId)
        { dict := acc.dict ++ [freshCanonicalRow acc group.canonical],
          idByNorm := jsMapSet acc.idByNorm (normalizeTagLabel group.canonical) acc.nextId,
          canonicalIds := setAdd acc.canonicalIds acc.nextId,
          mergeUpdates := acc.mergeUpdates,
          nextId := acc.nextId + 1 }

/-- admin lines 2194-2207: the canonical entries are reset to active and
unmerged (a no-op update when the set is empty). -/
def resetCanonicalRow (canonicalIds : List Nat) (r : DictRow) : DictRow :=
  if r.id ∈ canonicalIds
  then { r with status := DictStatus.active, merged_to_tag_id := none } else r

def applyCanonicalReset (dict : List DictRow) (canonicalIds : List Nat) : List DictRow :=
  if canonicalIds = [] then dict else dict.map (resetCanonicalRow canonicalIds)

/-- admin lines 2209-2224: the merge upsert marks every recorded member
merged and points it at its canonical (one batch; member ids are unique). -/
def applyOneMergeUpdate (u : Nat × Nat) (r : DictRow) : DictRow :=
  if r.id = u.1
  then { r with status := DictStatus.merged, merged_to_tag_id := some u.2 } else r

def applyMergeUpdates (dict : List DictRow) (updates : List (Nat × Nat)) : List DictRow :=
  if updates = [] then dict
  else updates.foldl (fun d u => d.map (applyOneMergeUpdate u)) dict

/-- admin lines 2072-2192: the full group computation of a merge run; a run
outside the label bounds is skipped and records nothing. -/
def mergeComputation (dict : List DictRow) (rawGroups : List RawMergeGroup) (nextId : Nat) :
    MergeAcc :=
  if (dict.filter (fun r => r.status = DictStatus.active)).length < DICT_MERGE_MIN_LABELS ∨
      DICT_MERGE_MAX_LABELS < (dict.filter (fun r => r.status = DictStatus.active)).length then
    { dict := dict, idByNorm := [], canonicalIds := [], mergeUpdates := [], nextId := nextId }
  else
    (parseMergeGroups rawGroups).foldl processMergeGroup
      { dict := dict,
        idByNorm := buildIdByNorm (dict.filter (fun r => r.status = DictStatus.active)),
        canonicalIds := [], mergeUpdates := [], nextId := nextId }

/-- admin lines 2067-2234: the dictionary after a merge run: canonical reset
first, then the merge upsert. -/
def mergeDictionaryForOwner (dict : List DictRow) (rawGroups : List RawMergeGroup)
    (nextId : Nat) : List DictRow :=
  applyMergeUpdates
    (applyCanonicalReset (mergeComputation dict rawGroups nextId).dict
      (mergeComputation dict rawGroups nextId).canonicalIds)
    (mergeComputation dict rawGroups nextId).mergeUpdates

/-- Applying the merge updates row by row. -/
def pointApplyMergeUpdates (updates : List (Nat × Nat)) (r : DictRow) : DictRow :=
  updates.foldl (fun r u => applyOneMergeUpdate u r) r

theorem applyMergeUpdates_eq_map (updates : List (Nat × Nat)) (dict : List DictRow)
    (h : updates ≠ []) :
    applyMergeUpdates dict updates = dict.map (pointApplyMergeUpdates updates) := by
  rw [applyMergeUpdates, if_neg h]
  clear h
  induction updates generalizing dict with
  | nil =>
    have h0 : pointApplyMergeUpdates ([] : List (Nat × Nat)) = id := rfl
    rw [List.foldl_nil, h0, List.map_id]
  | cons u us ih =>
    simp only [List.foldl_cons]
    rw [ih (dict.map (applyOneMergeUpdate u)), List.map_map]
    rfl

theorem pointApplyMergeUpdates_id (updates : List (Nat × Nat)) (r : DictRow) :
    (pointApplyMergeUpdates updates r).id = r.id := by
  induction updates generalizing r with
  | nil => rfl
  | cons u us ih =>
    simp only [pointApplyMergeUpdates, List.foldl_cons]
    rw [← pointApplyMergeUpdates]
    rw [ih]
    unfold applyOneMergeUpdate
    split <;> rfl

theorem pointApplyMergeUpdates_skip (updates : List (Nat × Nat)) (r : DictRow)
    (h : ∀ u ∈ updates, u.1 ≠ r.id) :
    pointApplyMergeUpdates updates r = r := by
  induction updates with
  | nil => rfl
  | cons u us ih =>
    simp only [pointApplyMergeUpdates, List.foldl_cons]
    rw [← pointApplyMergeUpdates]
    have h1 : applyOneMergeUpdate u r = r := by
      unfold applyOneMergeUpdate
      rw [if_neg]
      intro hc
      exact h u (List.mem_cons_self u us) hc.symm
    rw [h1]
    exact ih (fun v hv => h v (List.mem_cons_of_mem u hv))

theorem pointApplyMergeUpdates_hit (updates : List (Nat × Nat)) (mid tid : Nat)
    (r : DictRow) (hmem : (mid, tid) ∈ updates)
    (hnodup : (updates.map Prod.fst).Nodup) (hid : r.id = mid) :
    (pointApplyMergeUpdates updates r).status = DictStatus.merged ∧
      (pointApplyMergeUpdates updates r).merged_to_tag_id = some tid := by
  induction updates generalizing r with
  | nil => cases hmem
  | cons u us ih =>
    rcases List.mem_cons.mp hmem with hu | hu
    · subst hu
      simp only [pointApplyMergeUpdates, List.foldl_cons]
      rw [← pointApplyMergeUpdates]
      have h1 : applyOneMergeUpdate (mid, tid) r =
          { r with status := DictStatus.merged, merged_to_tag_id := some tid } := by
        unfold applyOneMergeUpdate
        rw [if_pos hid]
      rw [h1]
      have hrest : ∀ v ∈ us, v.1 ≠
          ({ r with status := DictStatus.merged, merged_to_tag_id := some tid } : DictRow).id := by
        intro v hv hc
        have hmid : mid ∉ us.map Prod.fst := by
          have := (List.nodup_cons.mp hnodup).1
          simpa using this
        exact hmid (by
          rw [← hid, ← hc]
          exact List.mem_map.mpr ⟨v, hv, rfl⟩)
      rw [pointApplyMergeUpdates_skip us _ hrest]
      exact ⟨rfl, rfl⟩
    · have hne : u.1 ≠ mid := by
        intro hc
        have := (List.nodup_cons.mp hnodup).1
        rw [hc] at this
        exact this (List.mem_map.mpr ⟨(mid, tid), hu, rfl⟩)
      simp only [pointApplyMergeUpdates, List.foldl_cons]
      rw [← pointApplyMergeUpdates]
      have h1 : applyOneMergeUpdate u r = r := by
        unfold applyOneMergeUpdate
        rw [if_neg]
        intro hc
        exact hne (by rw [← hc, hid])
      rw [h1]
      exact ih r hu (List.nodup_cons.mp hnodup).2 hid

/-! Invariants of the group-processing loop: the recorded member ids are
unique, and every recorded canonical target is in the canonical id set,
which only grows. -/

theorem mergeMemberStep_fields (cn : String) (cid : Nat) (a : MergeAcc) (m : String) :
    (mergeMemberStep cn cid a m).canonicalIds = a.canonicalIds ∧
      (mergeMemberStep cn cid a m).idByNorm = a.idByNorm ∧
      ((mergeMemberStep cn cid a m).mergeUpdates = a.mergeUpdates ∨
        ∃ mid, mid ∉ a.mergeUpdates.map Prod.fst ∧
          (mergeMemberStep cn cid a m).mergeUpdates = a.mergeUpdates ++ [(mid, cid)]) := by
  unfold mergeMemberStep
  split
  · exact ⟨rfl, rfl, Or.inl rfl⟩
  · split
    · exact ⟨rfl, rfl, Or.inl rfl⟩
    · rename_i mid _
      split
      · exact ⟨rfl, rfl, Or.inl rfl⟩
      · rename_i hnot
        exact ⟨rfl, rfl, Or.inr ⟨mid, hnot, rfl⟩⟩

theorem memberFold_invariants (cn : String) (cid : Nat) (members : List String)
    (a : MergeAcc)
    (hnodup : (a.mergeUpdates.map Prod.fst).Nodup)
    (htargets : ∀ u ∈ a.mergeUpdates, u.2 ∈ a.canonicalIds)
    (hcid : cid ∈ a.canonicalIds) :
    (members.foldl (mergeMemberStep cn cid) a).canonicalIds = a.canonicalIds ∧
      ((members.foldl (mergeMemberStep cn cid) a).mergeUpdates.map Prod.fst).Nodup ∧
      ∀ u ∈ (members.foldl (mergeMemberStep cn cid) a).mergeUpdates,
        u.2 ∈ a.canonicalIds := by
  induction members generalizing a with
  | nil => exact ⟨rfl, hnodup, htargets⟩
  | cons m ms ih =>
    simp only [List.foldl_cons]
    obtain ⟨hc, _, hup⟩ := mergeMemberStep_fields cn cid a m
    have hnodup2 : ((mergeMemberStep cn cid a m).mergeUpdates.map Prod.fst).Nodup := by
      rcases hup with h | ⟨mid, hmid, h⟩
      · rw [h]; exact hnodup
      · rw [h]
        simp only [List.map_append, List.map_cons, List.map_nil]
        rw [List.nodup_append]
        refine ⟨hnodup, by simp, ?_⟩
        intro x hx hx2
        simp only [List.mem_singleton] at hx2
        subst hx2
        exact hmid hx
    have htargets2 : ∀ u ∈ (mergeMemberStep cn cid a m).mergeUpdates,
        u.2 ∈ (mergeMemberStep cn cid a m).canonicalIds := by
      rw [hc]
      rcases hup with h | ⟨mid, _, h⟩
      · rw [h]; exact htargets
      · rw [h]
        intro u hu
        rcases List.mem_append.mp hu with h2 | h2
        · exact htargets u h2
        · simp only [List.mem_singleton] at h2
          subst h2
          exact hcid
    have hcid2 : cid ∈ (mergeMemberStep cn cid a m).canonicalIds := by
      rw [hc]; exact hcid
    obtain ⟨ha, hb, hc2⟩ := ih (mergeMemberStep cn cid a m) hnodup2 htargets2 hcid2
    rw [ha, hc]
    refine ⟨rfl, hb, ?_⟩
    intro u hu
    have := hc2 u hu
    rw [hc] at this
    exact this

theorem processMergeGroup_invariants (acc : MergeAcc) (g : MergeGroup)
    (hnodup : (acc.mergeUpdates.map Prod.fst).Nodup)
    (htargets : ∀ u ∈ acc.mergeUpdates, u.2 ∈ acc.canonicalIds) :
    ((processMergeGroup acc g).mergeUpdates.map Prod.fst).Nodup ∧
      (∀ u ∈ (processMergeGroup acc g).mergeUpdates,
        u.2 ∈ (processMergeGroup acc g).canonicalIds) ∧
      ∀ x ∈ acc.canonicalIds, x ∈ (processMergeGroup acc g).canonicalIds := by
  unfold processMergeGroup
  split
  · exact ⟨hnodup, htargets, fun x hx => hx⟩
  · rcases hresolved : jsMapGet acc.idByNorm (normalizeTagLabel g.canonical) with _ | cid
    all_goals simp only [hresolved]
    · obtain ⟨ha, hb, hc⟩ := memberFold_invariants (normalizeTagLabel g.canonical)
        acc.nextId g.members
        { dict := acc.dict ++ [freshCanonicalRow acc g.canonical],
          idByNorm := jsMapSet acc.idByNorm (normalizeTagLabel g.canonical) acc.nextId,
          canonicalIds := setAdd acc.canonicalIds acc.nextId,
          mergeUpdates := acc.mergeUpdates, nextId := acc.nextId + 1 }
        hnodup
        (fun u hu => (mem_setAdd _ _ _).mpr (Or.inl (htargets u hu)))
        ((mem_setAdd _ _ _).mpr (Or.inr rfl))
      refine ⟨hb, ?_, ?_⟩
      · intro u hu
        rw [ha]
        exact hc u hu
      · intro x hx
        rw [ha]
        exact (mem_setAdd _ _ _).mpr (Or.inl hx)
    · obtain ⟨ha, hb, hc⟩ := memberFold_invariants (normalizeTagLabel g.canonical)
        cid g.members { acc with canonicalIds := setAdd acc.canonicalIds cid }
        hnodup
        (fun u hu => (mem_setAdd _ _ _).mpr (Or.inl (htargets u hu)))
        ((mem_setAdd _ _ _).mpr (Or.inr rfl))
      refine ⟨hb, ?_, ?_⟩
      · intro u hu
        rw [ha]
        exact hc u hu
      · intro x hx
        rw [ha]
        exact (mem_setAdd _ _ _).mpr (Or.inl hx)

theorem groupFold_invariants (groups : List MergeGroup) (acc : MergeAcc)
    (hnodup : (acc.mergeUpdates.map Prod.fst).Nodup)
    (htargets : ∀ u ∈ acc.mergeUpdates, u.2 ∈ acc.canonicalIds) :
    ((groups.foldl processMergeGroup acc).mergeUpdates.map Prod.fst).Nodup ∧
      ∀ u ∈ (groups.foldl processMergeGroup acc).mergeUpdates,
        u.2 ∈ (groups.foldl processMergeGroup acc).canonicalIds := by
  induction groups generalizing acc with
  | nil => exact ⟨hnodup, htargets⟩
  | cons g gs ih =>
    simp only [List.foldl_cons]
    obtain ⟨h1, h2, _⟩ := processMergeGroup_invariants acc g hnodup htargets
    exact ih (processMergeGroup acc g) h1 h2

theorem mergeComputation_invariants (dict : List DictRow)
    (rawGroups : List RawMergeGroup) (nextId : Nat) :
    (((mergeComputation dict rawGroups nextId).mergeUpdates).map Prod.fst).Nodup ∧
      ∀ u ∈ (mergeComputation dict rawGroups nextId).mergeUpdates,
        u.2 ∈ (mergeComputation dict rawGroups nextId).canonicalIds := by
  unfold mergeComputation
  split
  · exact ⟨List.nodup_nil, by intro u hu; cases hu⟩
  · exact groupFold_invariants _ _ List.nodup_nil (by intro u hu; cases hu)

/-- Claim C6 (amended): after a merge run in which no recorded member is also
a recorded canonical (the member id set and the canonical id set of the run
are disjoint), every entry the run marks merged points at an entry that is
active after the run.  Without that disjointness the canonical reset runs
before the merge upsert, so a canonical that is also another group member
ends merged and a chain appears. -/
theorem claim_C6 (dict : List DictRow) (rawGroups : List RawMergeGroup) (nextId : Nat)
    (hdisj : ∀ u ∈ (mergeComputation dict rawGroups nextId).mergeUpdates,
      u.1 ∉ (mergeComputation dict rawGroups nextId).canonicalIds) :
    ∀ u ∈ (mergeComputation dict rawGroups nextId).mergeUpdates,
      (∀ r ∈ mergeDictionaryForOwner dict rawGroups nextId,
        r.id = u.1 → r.status = DictStatus.merged ∧ r.merged_to_tag_id = some u.2) ∧
      (∀ r ∈ mergeDictionaryForOwner dict rawGroups nextId,
        r.id = u.2 → r.status = DictStatus.active) := by
  intro u hu
  obtain ⟨hnodup, htargets⟩ := mergeComputation_invariants dict rawGroups nextId
  have hne : (mergeComputation dict rawGroups nextId).mergeUpdates ≠ [] := by
    intro h
    rw [h] at hu
    cases hu
  have hcne : (mergeComputation dict rawGroups nextId).canonicalIds ≠ [] := by
    intro h
    have := htargets u hu
    rw [h] at this
    cases this
  have hform : mergeDictionaryForOwner dict rawGroups nextId =
      ((mergeComputation dict rawGroups nextId).dict.map
        (resetCanonicalRow (mergeComputation dict rawGroups nextId).canonicalIds)).map
        (pointApplyMergeUpdates (mergeComputation dict rawGroups nextId).mergeUpdates) := by
    unfold mergeDictionaryForOwner
    rw [applyCanonicalReset, if_neg hcne]
    exact applyMergeUpdates_eq_map _ _ hne
  constructor
  · intro r hr hrid
    rw [hform] at hr
    rcases List.mem_map.mp hr with ⟨r1, _, rfl⟩
    have hid1 : r1.id = u.1 := by
      rw [← hrid]
      exact (pointApplyMergeUpdates_id _ _).symm
    exact pointApplyMergeUpdates_hit _ u.1 u.2 r1 hu hnodup hid1
  · intro r hr hrid
    rw [hform] at hr
    rcases List.mem_map.mp hr with ⟨r1, hr1, rfl⟩
    rcases List.mem_map.mp hr1 with ⟨r0, _, rfl⟩
    have hid1 : (resetCanonicalRow (mergeComputation dict rawGroups nextId).canonicalIds r0).id
        = u.2 := by
      rw [← hrid]
      exact (pointApplyMergeUpdates_id _ _).symm
    have hskip : ∀ v ∈ (mergeComputation dict rawGroups nextId).mergeUpdates,
        v.1 ≠ (resetCanonicalRow (mergeComputation dict rawGroups nextId).canonicalIds r0).id := by
      intro v hv hc
      apply hdisj v hv
      rw [hc, hid1]
      exact htargets u hu
    rw [pointApplyMergeUpdates_skip _ _ hskip]
    have hr0id : r0.id ∈ (mergeComputation dict rawGroups nextId).canonicalIds := by
      have : (resetCanonicalRow (mergeComputation dict rawGroups nextId).canonicalIds r0).id
          = r0.id := by
        unfold resetCanonicalRow
        split <;> rfl
      rw [this] at hid1
      rw [hid1]
      exact htargets u hu
    unfold resetCanonicalRow
    rw [if_pos hr0id]

/-- Four active dictionary entries of one owner. -/
def c6Dict : List DictRow :=
  [⟨1, "addition slip", "additionslip", DictStatus.active, none⟩,
   ⟨2, "addition error", "additionerror", DictStatus.active, none⟩,
   ⟨3, "adding mistake", "addingmistake", DictStatus.active, none⟩,
   ⟨4, "unit missing", "unitmissing", DictStatus.active, none⟩]

/-- Two overlapping model groups: the canonical of the second group is a
member of the first. -/
def c6Groups : List RawMergeGroup :=
  [⟨some "addition slip", ["addition slip", "addition error"]⟩,
   ⟨some "addition error", ["addition error", "adding mistake"]⟩]

/-- Claim C6 counterexample: with the overlapping groups above, the run
leaves entry 2 merged into entry 1 and entry 3 merged into entry 2, so the
merged entry 3 points at an entry that is itself merged: a merge chain. -/
theorem claim_C6_counterexample :
    mergeDictionaryForOwner c6Dict c6Groups 100 =
      [⟨1, "addition slip", "additionslip", DictStatus.active, none⟩,
       ⟨2, "addition error", "additionerror", DictStatus.merged, some 1⟩,
       ⟨3, "adding mistake", "addingmistake", DictStatus.merged, some 2⟩,
       ⟨4, "unit missing", "unitmissing", DictStatus.active, none⟩] ∧
    ∃ r ∈ mergeDictionaryForOwner c6Dict c6Groups 100,
      ∃ t ∈ mergeDictionaryForOwner c6Dict c6Groups 100,
        r.status = DictStatus.merged ∧ r.merged_to_tag_id = some t.id ∧
          t.status = DictStatus.merged := by
  decide

def c6OkGroups : List RawMergeGroup :=
  [⟨some "addition slip", ["addition slip", "addition error"]⟩]

/-- Claim C6 witness: a single non-overlapping group merges entry 2 into the
canonical entry 1, which stays active. -/
theorem claim_C6_witness :
    ((2 : Nat), (1 : Nat)) ∈ (mergeComputation c6Dict c6OkGroups 100).mergeUpdates ∧
    (∀ r ∈ mergeDictionaryForOwner c6Dict c6OkGroups 100,
      r.id = 2 → r.status = DictStatus.merged ∧ r.merged_to_tag_id = some 1) ∧
    (∀ r ∈ mergeDictionaryForOwner c6Dict c6OkGroups 100,
      r.id = 1 → r.status = DictStatus.active) := by
  refine ⟨by decide, ?_, ?_⟩
  · exact (claim_C6 c6Dict c6OkGroups 100 (by decide) (2, 1) (by decide)).1
  · exact (claim_C6 c6Dict c6OkGroups 100 (by decide) (2, 1) (by decide)).2

/-! Claim C7: buildIssueStats (admin lines 151-202) and the top-50 cut of
aggregateAssignmentTags (admin line 2827). -/

structure GradingMistake where
  reason : Option String
  question : Option String
deriving DecidableEq

structure GradingResult where
  mistakes : List GradingMistake
  weaknesses : List String
deriving DecidableEq

/-- One graded submission as buildIssueStats sees it; grading_result is the
parsed grading object (none models null or unparsable). -/
structure SubmissionRow where
  id : String
  student_id : Option String
  grading_result : Option GradingResult
deriving DecidableEq

/-- admin lines 169-174: reason and question of one mistake, the truthy parts
joined with a space. -/
def mistakeText (item : GradingMistake) : String :=
  String.intercalate " " (([item.reason.getD "", item.question.getD ""]).filter (fun s => s ≠ ""))

/-- admin lines 164-180: itemized mistakes win; otherwise the weaknesses
list; every phrase normalized and empties dropped. -/
def extractIssuesFromGrading (grading : Option GradingResult) : List String :=
  match grading with
  | none => []
  | some g =>
    if 0 < g.mistakes.length then
      ((g.mistakes.map mistakeText).map normalizeIssueText).filter (fun text => 0 < text.length)
    else
      (g.weaknesses.map normalizeIssueText).filter (fun text => 0 < text.length)

/-- admin line 190: the student id when truthy, else the submission id. -/
def ownerKeyOf (s : SubmissionRow) : String :=
  match s.student_id with
  | some sid => if sid = "" then s.id else sid
  | none => s.id

/-- admin lines 192-196: ensure the issue key exists, then add the owner key
to its set when the owner key is truthy. -/
def addIssueOwner (m : List (String × List String)) (issue ownerKey : String) :
    List (String × List String) :=
  jsMapUpsert m issue [] (fun bucket => if ownerKey = "" then bucket else setAdd bucket ownerKey)

/-- admin lines 185-197: one submission; phrases are deduplicated within the
submission before updating the issue map. -/
def processSubmissionIssues (m : List (String × List String)) (s : SubmissionRow) :
    List (String × List String) :=
  if (extractIssuesFromGrading s.grading_result).length = 0 then m
  else
    (jsSetOf (extractIssuesFromGrading s.grading_result)).foldl
      (fun acc issue => addIssueOwner acc issue (ownerKeyOf s)) m

def issueMapOf (subs : List SubmissionRow) : List (String × List String) :=
  subs.foldl processSubmissionIssues []

structure IssueStat where
  issue : String
  count : Nat
deriving DecidableEq

/-- Comparator b.count - a.count of admin line 201. -/
def issueCountDesc (a b : IssueStat) : Prop := b.count ≤ a.count

instance : DecidableRel issueCountDesc := fun a b =>
  inferInstanceAs (Decidable (b.count ≤ a.count))

instance : IsTotal IssueStat issueCountDesc := ⟨fun a b => le_total b.count a.count⟩

instance : IsTrans IssueStat issueCountDesc := ⟨fun _ _ _ hab hbc => le_trans hbc hab⟩

/-- admin lines 199-202: each issue with the size of its owner set, sorted
descending by count. -/
def buildIssueStats (subs : List SubmissionRow) : List IssueStat :=
  ((issueMapOf subs).map (fun p => IssueStat.mk p.1 p.2.length)).insertionSort issueCountDesc

/-- admin line 2827: the clustering run keeps the top TAG_TOP_ISSUES. -/
def issueStatsForPrompt (subs : List SubmissionRow) : List IssueStat :=
  (buildIssueStats subs).take TAG_TOP_ISSUES

/-! Generic characterization of a fold of guarded map upserts, shared by the
issue map of C7 and the ability stats of C9. -/

theorem jsMapGet_foldl_upsert {β γ : Type} (key : γ → String) (g : γ → Bool)
    (init : β) (upd : γ → β → β) (rows : List γ) (m : List (String × β)) (k : String) :
    jsMapGet (rows.foldl
        (fun acc x => if g x then jsMapUpsert acc (key x) init (upd x) else acc) m) k =
      (rows.filter (fun x => g x && key x = k)).foldl
        (fun ob x => some (upd x (ob.getD init))) (jsMapGet m k) := by
  induction rows generalizing m with
  | nil => rfl
  | cons x xs ih =>
    simp only [List.foldl_cons, List.filter_cons]
    by_cases hg : g x = true
    · by_cases hk : key x = k
      · have hcond : (g x && decide (key x = k)) = true := by
          rw [hg, hk]
          simp
        rw [if_pos hg, if_pos hcond]
        simp only [List.foldl_cons]
        rw [ih]
        congr 1
        rw [jsMapGet_upsert, if_pos hk.symm, hk]
      · have hcond : ¬ ((g x && decide (key x = k)) = true) := by
          simp [hk]
        rw [if_pos hg, if_neg hcond]
        rw [ih]
        congr 1
        rw [jsMapGet_upsert, if_neg (fun hc => hk hc.symm)]
    · have hcond : ¬ ((g x && decide (key x = k)) = true) := by
        simp only [Bool.and_eq_true, decide_eq_true_eq]
        intro hc
        exact hg hc.1
      rw [if_neg hg, if_neg hcond]
      exact ih m

theorem jsMapGet_foldl_upsert_true {β γ : Type} (key : γ → String) (init : β)
    (upd : γ → β → β) (rows : List γ) (m : List (String × β)) (k : String) :
    jsMapGet (rows.foldl (fun acc x => jsMapUpsert acc (key x) init (upd x)) m) k =
      (rows.filter (fun x => key x = k)).foldl
        (fun ob x => some (upd x (ob.getD init))) (jsMapGet m k) := by
  induction rows generalizing m with
  | nil => rfl
  | cons x xs ih =>
    simp only [List.foldl_cons, List.filter_cons]
    by_cases hk : key x = k
    · rw [if_pos (by simpa using hk)]
      simp only [List.foldl_cons]
      rw [ih]
      congr 1
      rw [jsMapGet_upsert, if_pos hk.symm, hk]
    · rw [if_neg (by simpa using hk)]
      rw [ih]
      congr 1
      rw [jsMapGet_upsert, if_neg (fun hc => hk hc.symm)]

theorem keysNodup_foldl_upsert {β γ : Type} (key : γ → String) (g : γ → Bool)
    (init : β) (upd : γ → β → β) (rows : List γ) (m : List (String × β))
    (h : (m.map Prod.fst).Nodup) :
    ((rows.foldl
        (fun acc x => if g x then jsMapUpsert acc (key x) init (upd x) else acc) m).map
      Prod.fst).Nodup := by
  induction rows generalizing m with
  | nil => exact h
  | cons x xs ih =>
    simp only [List.foldl_cons]
    by_cases hg : g x = true
    · simp only [hg, if_true]
      exact ih _ (keysNodup_jsMapUpsert m (key x) init (upd x) h)
    · have hg2 : g x = false := by simpa using hg
      simp only [hg2, if_false]
      exact ih _ h

theorem optionFold_some {β γ : Type} (init : β) (upd : γ → β → β) (l : List γ) (b0 : β) :
    l.foldl (fun ob x => some (upd x (ob.getD init))) (some b0) =
      some (l.foldl (fun b x => upd x b) b0) := by
  induction l generalizing b0 with
  | nil => rfl
  | cons x xs ih => simp only [List.foldl_cons, Option.getD_some, ih]

theorem optionFold_none {β γ : Type} (init : β) (upd : γ → β → β) (l : List γ)
    (h : l ≠ []) :
    l.foldl (fun ob x => some (upd x (ob.getD init))) none =
      some (l.foldl (fun b x => upd x b) init) := by
  cases l with
  | nil => exact absurd rfl h
  | cons x xs =>
    simp only [List.foldl_cons, Option.getD_none]
    exact optionFold_some init upd xs (upd x init)

/-! Flattening the per-submission issue fold into one fold over
(issue, owner key) pairs. -/

def submissionIssuePairs (subs : List SubmissionRow) : List (String × String) :=
  subs.flatMap (fun s =>
    (jsSetOf (extractIssuesFromGrading s.grading_result)).map
      (fun issue => (issue, ownerKeyOf s)))

theorem processSubmissionIssues_eq_pairs (m : List (String × List String))
    (s : SubmissionRow) :
    processSubmissionIssues m s =
      ((jsSetOf (extractIssuesFromGrading s.grading_result)).map
        (fun issue => (issue, ownerKeyOf s))).foldl
        (fun acc p => addIssueOwner acc p.1 p.2) m := by
  rw [List.foldl_map]
  unfold processSubmissionIssues
  split
  · rename_i hlen
    rw [List.length_eq_zero.mp hlen]
    rfl
  · rfl

theorem issueMapOf_eq_pairs_fold (subs : List SubmissionRow) :
    issueMapOf subs =
      (submissionIssuePairs subs).foldl (fun acc p => addIssueOwner acc p.1 p.2) [] := by
  unfold issueMapOf submissionIssuePairs
  generalize ([] : List (String × List String)) = m
  induction subs generalizing m with
  | nil => rfl
  | cons s ss ih =>
    simp only [List.foldl_cons, List.flatMap_cons, List.foldl_append]
    rw [processSubmissionIssues_eq_pairs, ih]

/-- The owner keys the code counts for one issue: one entry per submission
whose issue list contains the phrase and whose owner key is truthy. -/
def issueOwnersOf (subs : List SubmissionRow) (k : String) : List String :=
  subs.filterMap (fun s =>
    if k ∈ extractIssuesFromGrading s.grading_result ∧ ownerKeyOf s ≠ ""
    then some (ownerKeyOf s) else none)

theorem mem_jsSetOf {α : Type} [DecidableEq α] (l : List α) (y : α) :
    y ∈ jsSetOf l ↔ y ∈ l := by
  unfold jsSetOf
  suffices h : ∀ b : List α, y ∈ l.foldl setAdd b ↔ y ∈ b ∨ y ∈ l by
    simpa using h []
  induction l with
  | nil => simp
  | cons x xs ih =>
    intro b
    simp only [List.foldl_cons]
    rw [ih (setAdd b x), mem_setAdd]
    constructor
    · rintro ((hb | rfl) | hxs)
      · exact Or.inl hb
      · exact Or.inr (List.mem_cons_self _ _)
      · exact Or.inr (List.mem_cons_of_mem _ hxs)
    · rintro (hb | hx)
      · exact Or.inl (Or.inl hb)
      · rcases List.mem_cons.mp hx with rfl | hxs
        · exact Or.inl (Or.inr rfl)
        · exact Or.inr hxs

def ownerBucketStep (b : List String) (p : String × String) : List String :=
  if p.2 = "" then b else setAdd b p.2

theorem ownerBucketFold_nodup (pairs : List (String × String)) (b : List String)
    (h : b.Nodup) : (pairs.foldl ownerBucketStep b).Nodup := by
  induction pairs generalizing b with
  | nil => exact h
  | cons p ps ih =>
    simp only [List.foldl_cons]
    apply ih
    unfold ownerBucketStep
    split
    · exact h
    · exact nodup_setAdd _ _ h

theorem ownerBucketFold_toFinset (pairs : List (String × String)) (b : List String) :
    (pairs.foldl ownerBucketStep b).toFinset =
      b.toFinset ∪ ((pairs.filter (fun p => p.2 ≠ "")).map Prod.snd).toFinset := by
  induction pairs generalizing b with
  | nil => simp
  | cons p ps ih =>
    simp only [List.foldl_cons, List.filter_cons]
    by_cases hp : p.2 = ""
    · have hstep : ownerBucketStep b p = b := by
        unfold ownerBucketStep
        rw [if_pos hp]
      have hcond : (decide (p.2 ≠ "")) = false := by simp [hp]
      rw [hstep, hcond, if_neg (by simp)]
      exact ih b
    · have hstep : ownerBucketStep b p = setAdd b p.2 := by
        unfold ownerBucketStep
        rw [if_neg hp]
      have hcond : (decide (p.2 ≠ "")) = true := by simp [hp]
      rw [hstep, hcond, if_pos rfl, ih (setAdd b p.2), toFinset_setAdd]
      simp only [List.map_cons, List.toFinset_cons]
      ext y
      simp only [Finset.mem_union, Finset.mem_insert, List.mem_toFinset]
      tauto

/-- The bucket stored for an issue key is duplicate-free and holds exactly
the owner keys of the submissions that produced the issue. -/
theorem issueMap_bucket (subs : List SubmissionRow) (k : String) (b : List String)
    (hget : jsMapGet (issueMapOf subs) k = some b) :
    b.Nodup ∧ b.toFinset = (issueOwnersOf subs k).toFinset := by
  have hchar : jsMapGet (issueMapOf subs) k =
      ((submissionIssuePairs subs).filter (fun p => p.1 = k)).foldl
        (fun ob p => some (ownerBucketStep (ob.getD []) p)) none := by
    rw [issueMapOf_eq_pairs_fold]
    exact jsMapGet_foldl_upsert_true Prod.fst ([] : List String)
      (fun p bucket => ownerBucketStep bucket p) (submissionIssuePairs subs) [] k
  rw [hchar] at hget
  rcases hfil : ((submissionIssuePairs subs).filter (fun p => p.1 = k)) with _ | ⟨p0, ps⟩
  · rw [hfil, List.foldl_nil] at hget
    cases hget
  · rw [hfil] at hget
    have heval : (p0 :: ps).foldl (fun ob p => some (ownerBucketStep (ob.getD []) p)) none =
        some ((p0 :: ps).foldl ownerBucketStep []) :=
      optionFold_none ([] : List String) (fun p bucket => ownerBucketStep bucket p)
        (p0 :: ps) (List.cons_ne_nil p0 ps)
    have hb : some ((p0 :: ps).foldl ownerBucketStep []) = some b := heval.symm.trans hget
    injection hb with hb2
    subst hb2
    refine ⟨ownerBucketFold_nodup _ _ List.nodup_nil, ?_⟩
    rw [ownerBucketFold_toFinset]
    simp only [List.toFinset_nil, Finset.empty_union]
    rw [← hfil]
    ext y
    simp only [List.mem_toFinset, List.mem_map, List.mem_filter]
    constructor
    · rintro ⟨p, ⟨⟨hpmem, hpk⟩, hpne⟩, rfl⟩
      simp only [decide_eq_true_eq] at hpk
      simp only [decide_eq_true_eq] at hpne
      unfold submissionIssuePairs at hpmem
      rcases List.mem_flatMap.mp hpmem with ⟨s, hs, hps⟩
      rcases List.mem_map.mp hps with ⟨issue, hissue, heq⟩
      have hkey : ownerKeyOf s = p.2 := by rw [← heq]
      have hiss : issue = p.1 := by rw [← heq]
      unfold issueOwnersOf
      refine List.mem_filterMap.mpr ⟨s, hs, ?_⟩
      rw [if_pos, hkey]
      refine ⟨?_, by rw [hkey]; exact hpne⟩
      rw [← hpk, ← hiss]
      exact (mem_jsSetOf _ _).mp hissue
    · intro hy
      unfold issueOwnersOf at hy
      rcases List.mem_filterMap.mp hy with ⟨s, hs, hcond⟩
      by_cases hc : k ∈ extractIssuesFromGrading s.grading_result ∧ ownerKeyOf s ≠ ""
      · rw [if_pos hc] at hcond
        injection hcond with hcond
        refine ⟨(k, ownerKeyOf s), ⟨⟨?_, by simp⟩, by simp [hc.2]⟩, hcond⟩
        unfold submissionIssuePairs
        exact List.mem_flatMap.mpr ⟨s, hs,
          List.mem_map.mpr ⟨k, (mem_jsSetOf _ _).mpr hc.1, rfl⟩⟩
      · rw [if_neg hc] at hcond
        cases hcond

theorem issueMapOf_keysNodup (subs : List SubmissionRow) :
    ((issueMapOf subs).map Prod.fst).Nodup := by
  rw [issueMapOf_eq_pairs_fold]
  exact keysNodup_foldl_upsert Prod.fst (fun _ => true) ([] : List String)
    (fun p bucket => if p.2 = "" then bucket else setAdd bucket p.2)
    (submissionIssuePairs subs) [] List.nodup_nil

/-- Claim C7: the issue table handed to the prompt keeps at most
TAG_TOP_ISSUES (50) entries, is sorted descending by count, and counts each
phrase once per distinct student: when every submission carries a nonempty
owner key, the count of a phrase is the number of distinct owner keys among
the submissions whose issue list contains it (within-submission duplicates
and one student posting the phrase twice add nothing). -/
theorem claim_C7 (subs : List SubmissionRow)
    (hkeys : ∀ s ∈ subs, ownerKeyOf s ≠ "") :
    (issueStatsForPrompt subs).length ≤ TAG_TOP_ISSUES ∧
    (issueStatsForPrompt subs).Sorted issueCountDesc ∧
    ∀ e ∈ issueStatsForPrompt subs,
      e.count =
        ((subs.filter (fun s =>
          e.issue ∈ extractIssuesFromGrading s.grading_result)).map ownerKeyOf).toFinset.card := by
  refine ⟨List.length_take_le _ _, ?_, ?_⟩
  · unfold issueStatsForPrompt buildIssueStats
    exact (List.sorted_insertionSort issueCountDesc _).sublist (List.take_sublist _ _)
  · intro e he
    have he2 : e ∈ buildIssueStats subs := List.mem_of_mem_take he
    unfold buildIssueStats at he2
    have he3 := (List.perm_insertionSort issueCountDesc _).mem_iff.mp he2
    rcases List.mem_map.mp he3 with ⟨p, hp, rfl⟩
    have hget : jsMapGet (issueMapOf subs) p.1 = some p.2 :=
      jsMapGet_of_mem _ _ _ (issueMapOf_keysNodup subs) hp
    obtain ⟨hnodup, hfin⟩ := issueMap_bucket subs p.1 p.2 hget
    have hcount : p.2.length = (issueOwnersOf subs p.1).toFinset.card := by
      rw [← hfin]
      exact (List.toFinset_card_of_nodup hnodup).symm
    have howners : (issueOwnersOf subs p.1).toFinset =
        ((subs.filter (fun s =>
          p.1 ∈ extractIssuesFromGrading s.grading_result)).map ownerKeyOf).toFinset := by
      ext y
      simp only [List.mem_toFinset, List.mem_map, List.mem_filter]
      unfold issueOwnersOf
      constructor
      · intro hy
        rcases List.mem_filterMap.mp hy with ⟨s, hs, hcond⟩
        by_cases hc : p.1 ∈ extractIssuesFromGrading s.grading_result ∧ ownerKeyOf s ≠ ""
        · rw [if_pos hc] at hcond
          injection hcond with hcond
          exact ⟨s, ⟨hs, by simp [hc.1]⟩, hcond⟩
        · rw [if_neg hc] at hcond
          cases hcond
      · rintro ⟨s, ⟨hs, hmem⟩, rfl⟩
        simp only [decide_eq_true_eq] at hmem
        refine List.mem_filterMap.mpr ⟨s, hs, ?_⟩
        rw [if_pos ⟨hmem, hkeys s hs⟩]
    exact hcount.trans (by rw [howners])

/-- Scenario B of the spec: six graded submissions of six distinct students. -/
def c7Subs : List SubmissionRow :=
  [⟨"s1", some "st1", some ⟨[], ["missing units"]⟩⟩,
   ⟨"s2", some "st2", some ⟨[], ["missing units"]⟩⟩,
   ⟨"s3", some "st3", some ⟨[], ["sign error"]⟩⟩,
   ⟨"s4", some "st4", some ⟨[], ["wrong formula"]⟩⟩,
   ⟨"s5", some "st5", some ⟨[], ["sign error"]⟩⟩,
   ⟨"s6", some "st6", some ⟨[], ["sign error"]⟩⟩]

/-- Claim C7 witness: in scenario B the table ranks sign error with count 3,
and 3 is the number of distinct students who produced the phrase. -/
theorem claim_C7_witness :
    IssueStat.mk "sign error" 3 ∈ issueStatsForPrompt c7Subs ∧
    (IssueStat.mk "sign error" 3).count =
      ((c7Subs.filter (fun s =>
        (IssueStat.mk "sign error" 3).issue ∈ extractIssuesFromGrading s.grading_result)).map
        ownerKeyOf).toFinset.card := by
  refine ⟨by decide, ?_⟩
  exact (claim_C7 c7Subs (by decide)).2.2 (IssueStat.mk "sign error" 3) (by decide)

/-! Claim C9: refreshAbilityAggregates (admin lines 2610-2723). -/

structure MappingRow where
  tag_id : String
  ability_id : String
  confidence : Option ℚ
deriving DecidableEq

structure TagDictionaryRow where
  id : String
  label : String
  normalized_label : String
deriving DecidableEq

/-- One assignment_tag_aggregates row as the rollup reads it; tag_count is
Number(row.tag_count) with none for a non-numeric value (the code maps it to
0 with the or-zero guard). -/
structure AssignmentAggRow where
  assignment_id : Option String
  tag_label : String
  tag_count : Option ℚ
deriving DecidableEq

structure AssignmentDomainRow where
  id : String
  domain : Option String
deriving DecidableEq

structure AbilityBucket where
  total : ℚ
  assignments : List String
  domains : List String
deriving DecidableEq

structure AbilityAggregateRow where
  ability_id : String
  total_count : Int
  assignment_count : Nat
  domain_count : Nat
deriving DecidableEq

/-- admin lines 2632-2637: the stored normalized label of a dictionary row,
or the normalization of its label; the empty string models null. -/
def tagNormalizedOf (row : TagDictionaryRow) : String :=
  if row.normalized_label = "" then normalizeTagLabel row.label else row.normalized_label

def tagLabelById (tagRows : List TagDictionaryRow) : List (String × String) :=
  tagRows.foldl (fun m row => jsMapSet m row.id (tagNormalizedOf row)) []

/-- admin lines 2639-2644: the mapping row per normalized tag label, last
one wins; mappings whose tag id is unknown or resolves to an empty label
are dropped. -/
def abilityByTag (tagRows : List TagDictionaryRow) (mappingRows : List MappingRow) :
    List (String × MappingRow) :=
  mappingRows.foldl (fun m row =>
    match jsMapGet (tagLabelById tagRows) row.tag_id with
    | none => m
    | some tagNormalized =>
      if tagNormalized = "" then m else jsMapSet m tagNormalized row) []

/-- admin lines 2669-2671: assignment id to domain, null domain mapping to
the uncategorized bucket. -/
def domainByAssignment (assignmentRows : List AssignmentDomainRow) : List (String × String) :=
  assignmentRows.foldl (fun m row =>
    jsMapSet m row.id
      (match row.domain with
       | some d => if d = "" then "uncategorized" else d
       | none => "uncategorized")) []

/-- admin lines 2688-2689: the weight is Number(confidence) when finite,
else 1.  A stored number is finite and Number(null) is 0, which is finite,
so a null confidence weighs 0; the fallback 1 is unreachable for stored
mapping rows. -/
def confidenceWeight (confidence : Option ℚ) : ℚ :=
  match confidence with
  | some value => value
  | none => 0

/-- admin lines 2674-2678: the mapping responsible for an aggregate row;
none when the normalized label is empty or has no mapping. -/
def rowAbilityOf (abilityMap : List (String × MappingRow)) (row : AssignmentAggRow) :
    Option MappingRow :=
  if normalizeTagLabel row.tag_label = "" then none
  else jsMapGet abilityMap (normalizeTagLabel row.tag_label)

/-- admin lines 2687-2694: one aggregate row updating its ability bucket;
the total always grows by tag_count times the weight, the assignment and
domain sets only when the row carries an assignment id. -/
def abilityBucketUpdate (domainMap : List (String × String)) (mapping : MappingRow)
    (row : AssignmentAggRow) (bucket : AbilityBucket) : AbilityBucket :=
  match row.assignment_id with
  | some aid =>
    if aid = "" then
      { bucket with
          total := bucket.total + (row.tag_count.getD 0) * confidenceWeight mapping.confidence }
    else
      { total := bucket.total + (row.tag_count.getD 0) * confidenceWeight mapping.confidence,
        assignments := setAdd bucket.assignments aid,
        domains := setAdd bucket.domains ((jsMapGet domainMap aid).getD "uncategorized") }
  | none =>
    { bucket with
        total := bucket.total + (row.tag_count.getD 0) * confidenceWeight mapping.confidence }

/-- admin lines 2673-2695: the per-ability stats fold. -/
def abilityStatRow (abilityMap : List (String × MappingRow))
    (domainMap : List (String × String)) (m : List (String × AbilityBucket))
    (row : AssignmentAggRow) : List (String × AbilityBucket) :=
  match rowAbilityOf abilityMap row with
  | none => m
  | some mapping =>
    jsMapUpsert m mapping.ability_id (AbilityBucket.mk 0 [] [])
      (abilityBucketUpdate domainMap mapping row)

def abilityStatsOf (abilityMap : List (String × MappingRow))
    (domainMap : List (String × String)) (aggRows : List AssignmentAggRow) :
    List (String × AbilityBucket) :=
  aggRows.foldl (abilityStatRow abilityMap domainMap) []

/-- JS Math.round: round half toward positive infinity. -/
def jsRound (q : ℚ) : Int := Int.floor (q + 1/2)

/-- admin lines 2697-2718: the ability aggregate rows the rollup inserts,
one per ability of the stats map. -/
def refreshAbilityAggregateRows (tagRows : List TagDictionaryRow)
    (mappingRows : List MappingRow) (assignmentRows : List AssignmentDomainRow)
    (aggRows : List AssignmentAggRow) : List AbilityAggregateRow :=
  (abilityStatsOf (abilityByTag tagRows mappingRows) (domainByAssignment assignmentRows)
      aggRows).map
    (fun p =>
      { ability_id := p.1, total_count := max 1 (jsRound p.2.total),
        assignment_count := p.2.assignments.length,
        domain_count := p.2.domains.length })

/-! Reference quantities for the amended claim, computed per aggregate row. -/

def abilityRowContribution (abilityMap : List (String × MappingRow)) (abilityId : String)
    (row : AssignmentAggRow) : ℚ :=
  match rowAbilityOf abilityMap row with
  | some mapping =>
    if mapping.ability_id = abilityId then
      (row.tag_count.getD 0) * confidenceWeight mapping.confidence
    else 0
  | none => 0

def contributingAssignmentOf (row : AssignmentAggRow) : Option String :=
  match row.assignment_id with
  | some aid => if aid = "" then none else some aid
  | none => none

def abilityContributingAssignments (abilityMap : List (String × MappingRow))
    (abilityId : String) (aggRows : List AssignmentAggRow) : List String :=
  aggRows.filterMap (fun row =>
    match rowAbilityOf abilityMap row with
    | some mapping =>
      if mapping.ability_id = abilityId then contributingAssignmentOf row else none
    | none => none)

def abilityContributingDomains (abilityMap : List (String × MappingRow))
    (domainMap : List (String × String)) (abilityId : String)
    (aggRows : List AssignmentAggRow) : List String :=
  aggRows.filterMap (fun row =>
    match rowAbilityOf abilityMap row with
    | some mapping =>
      if mapping.ability_id = abilityId then
        (contributingAssignmentOf row).map (fun aid => (jsMapGet domainMap aid).getD "uncategorized")
      else none
    | none => none)

/-! Bridging the stats fold to the generic guarded upsert fold. -/

def abilityGuard (abilityMap : List (String × MappingRow)) (row : AssignmentAggRow) : Bool :=
  (rowAbilityOf abilityMap row).isSome

def abilityKeyOf (abilityMap : List (String × MappingRow)) (row : AssignmentAggRow) : String :=
  ((rowAbilityOf abilityMap row).map (fun mp => mp.ability_id)).getD ""

def abilityUpdOf (abilityMap : List (String × MappingRow)) (domainMap : List (String × String))
    (row : AssignmentAggRow) (b : AbilityBucket) : AbilityBucket :=
  match rowAbilityOf abilityMap row with
  | some mapping => abilityBucketUpdate domainMap mapping row b
  | none => b

theorem foldl_ext {α σ : Type} (f g : σ → α → σ) (h : ∀ s a, f s a = g s a)
    (l : List α) (s : σ) : l.foldl f s = l.foldl g s := by
  induction l generalizing s with
  | nil => rfl
  | cons x xs ih => rw [List.foldl_cons, List.foldl_cons, h, ih]

theorem abilityStatRow_eq_guarded (am : List (String × MappingRow))
    (dm : List (String × String)) (m : List (String × AbilityBucket))
    (row : AssignmentAggRow) :
    abilityStatRow am dm m row =
      if abilityGuard am row then
        jsMapUpsert m (abilityKeyOf am row) (AbilityBucket.mk 0 [] []) (abilityUpdOf am dm row)
      else m := by
  rcases h : rowAbilityOf am row with _ | mp
  · simp [abilityStatRow, abilityGuard, h]
  · simp only [abilityStatRow, abilityGuard, abilityKeyOf, h, Option.isSome_some, if_true,
      Option.map_some, Option.getD_some]
    congr 1
    funext b
    unfold abilityUpdOf
    rw [h]

def abilityFoldFor (abilityMap : List (String × MappingRow))
    (domainMap : List (String × String)) (abilityId : String)
    (aggRows : List AssignmentAggRow) (b : AbilityBucket) : AbilityBucket :=
  (aggRows.filter (fun row =>
      abilityGuard abilityMap row && (abilityKeyOf abilityMap row = abilityId))).foldl
    (fun acc row => abilityUpdOf abilityMap domainMap row acc) b

theorem abilityBucketUpdate_char (dm : List (String × String)) (mp : MappingRow)
    (row : AssignmentAggRow) (b : AbilityBucket)
    (hb1 : b.assignments.Nodup) (hb2 : b.domains.Nodup) :
    (abilityBucketUpdate dm mp row b).total =
      b.total + (row.tag_count.getD 0) * confidenceWeight mp.confidence ∧
    (abilityBucketUpdate dm mp row b).assignments.Nodup ∧
    (abilityBucketUpdate dm mp row b).assignments.toFinset =
      b.assignments.toFinset ∪ (contributingAssignmentOf row).toList.toFinset ∧
    (abilityBucketUpdate dm mp row b).domains.Nodup ∧
    (abilityBucketUpdate dm mp row b).domains.toFinset =
      b.domains.toFinset ∪
        ((contributingAssignmentOf row).map
          (fun aid => (jsMapGet dm aid).getD "uncategorized")).toList.toFinset := by
  rcases haid : row.assignment_id with _ | aid
  · have hc : contributingAssignmentOf row = none := by
      unfold contributingAssignmentOf
      rw [haid]
    have hu : abilityBucketUpdate dm mp row b =
        { b with total := b.total + (row.tag_count.getD 0) * confidenceWeight mp.confidence } := by
      unfold abilityBucketUpdate
      rw [haid]
    rw [hu, hc]
    exact ⟨rfl, hb1, by simp, hb2, by simp⟩
  · by_cases he : aid = ""
    · have hc : contributingAssignmentOf row = none := by
        simp [contributingAssignmentOf, haid, he]
      have hu : abilityBucketUpdate dm mp row b =
          { b with total := b.total + (row.tag_count.getD 0) * confidenceWeight mp.confidence } := by
        simp [abilityBucketUpdate, haid, he]
      rw [hu, hc]
      exact ⟨rfl, hb1, by simp, hb2, by simp⟩
    · have hc : contributingAssignmentOf row = some aid := by
        simp [contributingAssignmentOf, haid, he]
      have hu : abilityBucketUpdate dm mp row b =
          { total := b.total + (row.tag_count.getD 0) * confidenceWeight mp.confidence,
            assignments := setAdd b.assignments aid,
            domains := setAdd b.domains ((jsMapGet dm aid).getD "uncategorized") } := by
        simp [abilityBucketUpdate, haid, he]
      rw [hu, hc]
      refine ⟨rfl, nodup_setAdd _ _ hb1, ?_, nodup_setAdd _ _ hb2, ?_⟩
      · show (setAdd b.assignments aid).toFinset = _
        rw [toFinset_setAdd]
        ext y
        simp only [Finset.mem_insert, Finset.mem_union, List.mem_toFinset, Option.toList_some,
          List.mem_singleton]
        tauto
      · show (setAdd b.domains ((jsMapGet dm aid).getD "uncategorized")).toFinset = _
        rw [toFinset_setAdd]
        ext y
        simp only [Finset.mem_insert, Finset.mem_union, List.mem_toFinset, Option.map_some,
          Option.map_some', Option.toList_some, List.mem_singleton]
        tauto

theorem abilityFoldFor_char (am : List (String × MappingRow)) (dm : List (String × String))
    (A : String) (aggRows : List AssignmentAggRow) :
    ∀ b : AbilityBucket, b.assignments.Nodup → b.domains.Nodup →
      (abilityFoldFor am dm A aggRows b).total =
          b.total + (aggRows.map (abilityRowContribution am A)).sum ∧
        (abilityFoldFor am dm A aggRows b).assignments.Nodup ∧
        (abilityFoldFor am dm A aggRows b).assignments.toFinset =
          b.assignments.toFinset ∪ (abilityContributingAssignments am A aggRows).toFinset ∧
        (abilityFoldFor am dm A aggRows b).domains.Nodup ∧
        (abilityFoldFor am dm A aggRows b).domains.toFinset =
          b.domains.toFinset ∪ (abilityContributingDomains am dm A aggRows).toFinset := by
  induction aggRows with
  | nil =>
    intro b hb1 hb2
    refine ⟨by simp [abilityFoldFor], hb1,
      by simp [abilityFoldFor, abilityContributingAssignments], hb2,
      by simp [abilityFoldFor, abilityContributingDomains]⟩
  | cons row rest ih =>
    intro b hb1 hb2
    rcases hra : rowAbilityOf am row with _ | mp
    · have hcond : ¬ ((abilityGuard am row && decide (abilityKeyOf am row = A)) = true) := by
        simp [abilityGuard, hra]
      have hfil : abilityFoldFor am dm A (row :: rest) b = abilityFoldFor am dm A rest b := by
        unfold abilityFoldFor
        rw [List.filter_cons, if_neg hcond]
      have hcontrib : abilityRowContribution am A row = 0 := by
        simp [abilityRowContribution, hra]
      have hfa : abilityContributingAssignments am A (row :: rest) =
          abilityContributingAssignments am A rest := by
        unfold abilityContributingAssignments
        apply List.filterMap_cons_none
        simp [hra]
      have hfd : abilityContributingDomains am dm A (row :: rest) =
          abilityContributingDomains am dm A rest := by
        unfold abilityContributingDomains
        apply List.filterMap_cons_none
        simp [hra]
      obtain ⟨iht, iha1, iha2, ihd1, ihd2⟩ := ih b hb1 hb2
      rw [hfil, hfa, hfd]
      exact ⟨by rw [iht, List.map_cons, List.sum_cons, hcontrib, zero_add],
        iha1, iha2, ihd1, ihd2⟩
    · by_cases hA : mp.ability_id = A
      · have hcond : (abilityGuard am row && decide (abilityKeyOf am row = A)) = true := by
          simp [abilityGuard, abilityKeyOf, hra, hA]
        have hfil : abilityFoldFor am dm A (row :: rest) b =
            abilityFoldFor am dm A rest (abilityBucketUpdate dm mp row b) := by
          unfold abilityFoldFor
          rw [List.filter_cons, if_pos hcond, List.foldl_cons]
          have hstep : abilityUpdOf am dm row b = abilityBucketUpdate dm mp row b := by
            unfold abilityUpdOf
            rw [hra]
          rw [hstep]
        have hcontrib : abilityRowContribution am A row =
            (row.tag_count.getD 0) * confidenceWeight mp.confidence := by
          simp [abilityRowContribution, hra, hA]
        obtain ⟨hut, hu1, hu2, hu3, hu4⟩ := abilityBucketUpdate_char dm mp row b hb1 hb2
        obtain ⟨iht, iha1, iha2, ihd1, ihd2⟩ := ih (abilityBucketUpdate dm mp row b) hu1 hu3
        rw [hfil]
        refine ⟨by rw [iht, hut, List.map_cons, List.sum_cons, hcontrib, add_assoc],
          iha1, ?_, ihd1, ?_⟩
        · rcases hc : contributingAssignmentOf row with _ | aid
          · have hfa : abilityContributingAssignments am A (row :: rest) =
                abilityContributingAssignments am A rest := by
              unfold abilityContributingAssignments
              apply List.filterMap_cons_none
              simp [hra, hA, hc]
            rw [hfa, iha2, hu2, hc]
            simp
          · have hfa : abilityContributingAssignments am A (row :: rest) =
                aid :: abilityContributingAssignments am A rest := by
              unfold abilityContributingAssignments
              apply List.filterMap_cons_some
              simp [hra, hA, hc]
            rw [hfa, iha2, hu2, hc, List.toFinset_cons]
            ext y
            simp only [Finset.mem_insert, Finset.mem_union, List.mem_toFinset,
              Option.toList_some, List.mem_singleton]
            tauto
        · rcases hc : contributingAssignmentOf row with _ | aid
          · have hfd : abilityContributingDomains am dm A (row :: rest) =
                abilityContributingDomains am dm A rest := by
              unfold abilityContributingDomains
              apply List.filterMap_cons_none
              simp [hra, hA, hc]
            rw [hfd, ihd2, hu4, hc]
            simp
          · have hfd : abilityContributingDomains am dm A (row :: rest) =
                ((jsMapGet dm aid).getD "uncategorized") ::
                  abilityContributingDomains am dm A rest := by
              unfold abilityContributingDomains
              apply List.filterMap_cons_some
              simp [hra, hA, hc]
            rw [hfd, ihd2, hu4, hc, List.toFinset_cons]
            ext y
            simp only [Finset.mem_insert, Finset.mem_union, List.mem_toFinset,
              Option.map_some, Option.map_some', Option.toList_some, List.mem_singleton]
            tauto
      · have hcond : ¬ ((abilityGuard am row && decide (abilityKeyOf am row = A)) = true) := by
          simp [abilityGuard, abilityKeyOf, hra, hA]
        have hfil : abilityFoldFor am dm A (row :: rest) b = abilityFoldFor am dm A rest b := by
          unfold abilityFoldFor
          rw [List.filter_cons, if_neg hcond]
        have hcontrib : abilityRowContribution am A row = 0 := by
          simp [abilityRowContribution, hra, hA]
        have hfa : abilityContributingAssignments am A (row :: rest) =
            abilityContributingAssignments am A rest := by
          unfold abilityContributingAssignments
          apply List.filterMap_cons_none
          simp [hra, hA]
        have hfd : abilityContributingDomains am dm A (row :: rest) =
            abilityContributingDomains am dm A rest := by
          unfold abilityContributingDomains
          apply List.filterMap_cons_none
          simp [hra, hA]
        obtain ⟨iht, iha1, iha2, ihd1, ihd2⟩ := ih b hb1 hb2
        rw [hfil, hfa, hfd]
        exact ⟨by rw [iht, List.map_cons, List.sum_cons, hcontrib, zero_add],
          iha1, iha2, ihd1, ihd2⟩

theorem abilityStats_entry (am : List (String × MappingRow)) (dm : List (String × String))
    (aggRows : List AssignmentAggRow) (A : String) (bucket : AbilityBucket)
    (hget : jsMapGet (abilityStatsOf am dm aggRows) A = some bucket) :
    bucket.total = (aggRows.map (abilityRowContribution am A)).sum ∧
    bucket.assignments.Nodup ∧
    bucket.assignments.toFinset = (abilityContributingAssignments am A aggRows).toFinset ∧
    bucket.domains.Nodup ∧
    bucket.domains.toFinset = (abilityContributingDomains am dm A aggRows).toFinset := by
  have hchar : jsMapGet (abilityStatsOf am dm aggRows) A =
      (aggRows.filter (fun row =>
          abilityGuard am row && (abilityKeyOf am row = A))).foldl
        (fun ob row => some (abilityUpdOf am dm row (ob.getD (AbilityBucket.mk 0 [] [])))) none := by
    unfold abilityStatsOf
    rw [foldl_ext (abilityStatRow am dm) _ (abilityStatRow_eq_guarded am dm) aggRows []]
    exact jsMapGet_foldl_upsert (abilityKeyOf am) (abilityGuard am) (AbilityBucket.mk 0 [] [])
      (abilityUpdOf am dm) aggRows [] A
  rw [hchar] at hget
  rcases hfil : aggRows.filter (fun row =>
      abilityGuard am row && (abilityKeyOf am row = A)) with _ | ⟨r0, rs⟩
  · rw [hfil, List.foldl_nil] at hget
    cases hget
  · rw [hfil] at hget
    have heval : (r0 :: rs).foldl
        (fun ob row => some (abilityUpdOf am dm row (ob.getD (AbilityBucket.mk 0 [] [])))) none =
        some ((r0 :: rs).foldl (fun acc row => abilityUpdOf am dm row acc) (AbilityBucket.mk 0 [] [])) :=
      optionFold_none (AbilityBucket.mk 0 [] []) (abilityUpdOf am dm) (r0 :: rs)
        (List.cons_ne_nil r0 rs)
    have hb := heval.symm.trans hget
    injection hb with hb2
    have hbucket : abilityFoldFor am dm A aggRows (AbilityBucket.mk 0 [] []) = bucket := by
      unfold abilityFoldFor
      rw [hfil]
      exact hb2
    obtain ⟨ht, ha1, ha2, hd1, hd2⟩ := abilityFoldFor_char am dm A aggRows
      (AbilityBucket.mk 0 [] []) List.nodup_nil List.nodup_nil
    rw [hbucket] at ht ha1 ha2 hd1 hd2
    refine ⟨?_, ha1, ?_, hd1, ?_⟩
    · rw [ht]
      exact zero_add _
    · rw [ha2]
      exact Finset.empty_union _
    · rw [hd2]
      exact Finset.empty_union _

/-- Claim C9 (amended): the rollup writes one row per mapped ability; its
total_count is Math.max(1, Math.round(S)) where S sums tag_count times the
mapping weight over the aggregate rows whose normalized tag label is mapped
to the ability, the weight being the stored confidence and 0 when the
confidence is null (Number(null) = 0, not the claimed default 1); its
assignment_count and domain_count are the numbers of distinct contributing
assignment ids and domains. -/
theorem claim_C9 (tagRows : List TagDictionaryRow) (mappingRows : List MappingRow)
    (assignmentRows : List AssignmentDomainRow) (aggRows : List AssignmentAggRow) :
    ((refreshAbilityAggregateRows tagRows mappingRows assignmentRows aggRows).map
      (fun r => r.ability_id)).Nodup ∧
    ∀ r ∈ refreshAbilityAggregateRows tagRows mappingRows assignmentRows aggRows,
      r.total_count = max 1 (jsRound ((aggRows.map (abilityRowContribution
        (abilityByTag tagRows mappingRows) r.ability_id)).sum)) ∧
      r.assignment_count = (abilityContributingAssignments (abilityByTag tagRows mappingRows)
        r.ability_id aggRows).toFinset.card ∧
      r.domain_count = (abilityContributingDomains (abilityByTag tagRows mappingRows)
        (domainByAssignment assignmentRows) r.ability_id aggRows).toFinset.card := by
  have hkeys : ((abilityStatsOf (abilityByTag tagRows mappingRows)
      (domainByAssignment assignmentRows) aggRows).map Prod.fst).Nodup := by
    unfold abilityStatsOf
    rw [foldl_ext (abilityStatRow (abilityByTag tagRows mappingRows)
      (domainByAssignment assignmentRows)) _
      (abilityStatRow_eq_guarded (abilityByTag tagRows mappingRows)
        (domainByAssignment assignmentRows)) aggRows []]
    exact keysNodup_foldl_upsert (abilityKeyOf (abilityByTag tagRows mappingRows))
      (abilityGuard (abilityByTag tagRows mappingRows)) (AbilityBucket.mk 0 [] [])
      (abilityUpdOf (abilityByTag tagRows mappingRows) (domainByAssignment assignmentRows))
      aggRows [] List.nodup_nil
  constructor
  · unfold refreshAbilityAggregateRows
    rw [List.map_map]
    exact hkeys
  · intro r hr
    unfold refreshAbilityAggregateRows at hr
    rcases List.mem_map.mp hr with ⟨p, hp, rfl⟩
    have hget : jsMapGet (abilityStatsOf (abilityByTag tagRows mappingRows)
        (domainByAssignment assignmentRows) aggRows) p.1 = some p.2 :=
      jsMapGet_of_mem _ _ _ hkeys hp
    obtain ⟨ht, ha1, ha2, hd1, hd2⟩ := abilityStats_entry (abilityByTag tagRows mappingRows)
      (domainByAssignment assignmentRows) aggRows p.1 p.2 hget
    refine ⟨?_, ?_, ?_⟩
    · show max 1 (jsRound p.2.total) = _
      rw [ht]
    · show p.2.assignments.length = _
      rw [← List.toFinset_card_of_nodup ha1, ha2]
    · show p.2.domains.length = _
      rw [← List.toFinset_card_of_nodup hd1, hd2]

/-- Modelled from the claim wording, for comparison only: the total the
claim asserts, summing tag_count times confidence with confidence taken as
1 when absent. -/
def specAbilityTotal (abilityMap : List (String × MappingRow)) (abilityId : String)
    (aggRows : List AssignmentAggRow) : ℚ :=
  (aggRows.map (fun row =>
    match rowAbilityOf abilityMap row with
    | some mapping =>
      if mapping.ability_id = abilityId then
        (row.tag_count.getD 0) * (mapping.confidence.getD 1)
      else 0
    | none => 0)).sum

def c9TagRows : List TagDictionaryRow := [⟨"t1", "sign error", "signerror"⟩]

def c9MappingRows : List MappingRow := [⟨"t1", "A", none⟩]

def c9AssignmentRows : List AssignmentDomainRow := [⟨"x", some "math"⟩]

def c9AggRows : List AssignmentAggRow := [⟨some "x", "sign error", some 5⟩]

def c9Row : AbilityAggregateRow :=
  { ability_id := "A", total_count := 1, assignment_count := 1, domain_count := 1 }

theorem c9_refresh_eval :
    refreshAbilityAggregateRows c9TagRows c9MappingRows c9AssignmentRows c9AggRows = [c9Row] := by
  have hn : normalizeTagLabel "sign error" = "signerror" := by decide
  simp only [refreshAbilityAggregateRows, abilityStatsOf, abilityStatRow, rowAbilityOf,
    abilityByTag, tagLabelById, tagNormalizedOf, domainByAssignment, jsMapSet, jsMapUpsert,
    jsMapGet, c9TagRows, c9MappingRows, c9AssignmentRows, c9AggRows, c9Row, hn,
    abilityBucketUpdate, confidenceWeight, setAdd, jsRound, List.foldl_cons, List.foldl_nil,
    List.map_cons, List.map_nil, Option.getD_some]
  have h1 : ¬ ("signerror" = "") := by decide
  have h2 : ¬ ("x" = "") := by decide
  have h3 : ¬ ("math" = "") := by decide
  norm_num [h1, h2, h3]

/-- Claim C9 counterexample: one aggregate row with tag count 5 whose tag
maps to ability A with a null confidence.  The claim computes 5 times the
default weight 1 = 5; the code weighs a null confidence 0 and then applies
Math.max(1, Math.round(0)), writing total_count 1. -/
theorem claim_C9_counterexample :
    refreshAbilityAggregateRows c9TagRows c9MappingRows c9AssignmentRows c9AggRows = [c9Row] ∧
    c9Row.total_count = 1 ∧
    specAbilityTotal (abilityByTag c9TagRows c9MappingRows) "A" c9AggRows = 5 ∧
    (1 : ℚ) ≠ 5 := by
  refine ⟨c9_refresh_eval, rfl, ?_, by norm_num⟩
  have hn : normalizeTagLabel "sign error" = "signerror" := by decide
  simp only [specAbilityTotal, rowAbilityOf, abilityByTag, tagLabelById, tagNormalizedOf,
    jsMapSet, jsMapUpsert, jsMapGet, c9TagRows, c9MappingRows, c9AggRows, hn,
    List.foldl_cons, List.foldl_nil, List.map_cons, List.map_nil, Option.getD_some]
  have h1 : ¬ ("signerror" = "") := by decide
  norm_num [h1]

/-- Claim C9 witness: the amended formulas evaluated at the concrete input. -/
theorem claim_C9_witness :
    c9Row ∈ refreshAbilityAggregateRows c9TagRows c9MappingRows c9AssignmentRows c9AggRows ∧
    c9Row.total_count = max 1 (jsRound ((c9AggRows.map (abilityRowContribution
      (abilityByTag c9TagRows c9MappingRows) c9Row.ability_id)).sum)) ∧
    c9Row.assignment_count = (abilityContributingAssignments
      (abilityByTag c9TagRows c9MappingRows) c9Row.ability_id c9AggRows).toFinset.card ∧
    c9Row.domain_count = (abilityContributingDomains (abilityByTag c9TagRows c9MappingRows)
      (domainByAssignment c9AssignmentRows) c9Row.ability_id c9AggRows).toFinset.card := by
  have hmem : c9Row ∈ refreshAbilityAggregateRows c9TagRows c9MappingRows
      c9AssignmentRows c9AggRows := by
    rw [c9_refresh_eval]
    exact List.mem_singleton.mpr rfl
  exact ⟨hmem,
    (claim_C9 c9TagRows c9MappingRows c9AssignmentRows c9AggRows).2 c9Row hmem⟩

end RedPen
